import Mathlib

/-!
Verification development for the chat-service orchestration pipeline
(src/services/chat.service.ts).

The TypeScript service is shallowly embedded: every pure helper of the
service becomes a Lean function translated from the source, stateful or
remote interactions (completion provider, embedding provider, vector
backend, persistence) become explicit oracle parameters, and values that
JavaScript treats as `string | null | undefined` become `Option String`
together with explicit truthiness helpers.  Machine text is modelled as
`List Char` / `String`; the service performs no numeric computation that
could overflow.
-/

set_option maxHeartbeats 1000000

namespace ChatService

/-! ## JavaScript value helpers -/

/-- Truthiness of a JS `string | null | undefined` value: `null`/`undefined`
and the empty string are falsy, every other string is truthy. -/
def jsTruthy : Option String → Bool
  | none => false
  | some s => !s.isEmpty

/-- The JS idiom `x || null` applied to a `string | null | undefined`. -/
def jsOrNull (x : Option String) : Option String :=
  if jsTruthy x then x else none

/-- The JS idiom `a || b` on `string | undefined` values: `a` when truthy,
else `b`. -/
def jsOrStr (a b : Option String) : Option String :=
  if jsTruthy a then a else b

/-- Membership of the character in the JS `\s` class (the whitespace
characters relevant to this service; the exotic Unicode space code points
are included by code point). -/
def jsWs (c : Char) : Bool :=
  c == ' ' || c == '\t' || c == '\n' || c == '\r' ||
  c.toNat == 11 || c.toNat == 12 || c.toNat == 160 || c.toNat == 65279 ||
  c.toNat == 8232 || c.toNat == 8233

/-- JS `String.prototype.trim` on a character list. -/
def jsTrimList (s : List Char) : List Char :=
  ((s.dropWhile jsWs).reverse.dropWhile jsWs).reverse

/-- JS `String.prototype.trim`. -/
def jsTrim (s : String) : String :=
  String.mk (jsTrimList s.data)

/-- Occurrence of `needle` as a contiguous sub-list of `haystack` (the
Boolean counterpart of `List.IsInfix`). -/
def occursIn (needle : List Char) : List Char → Bool
  | [] => needle.isEmpty
  | c :: cs => needle.isPrefixOf (c :: cs) || occursIn needle cs

/-- JS `haystack.includes(needle)` on strings. -/
def includesSub (haystack needle : String) : Bool :=
  occursIn needle.data haystack.data

/-- The JS `\d` class (ASCII digits). -/
def isDig (c : Char) : Bool :=
  decide (48 ≤ c.toNat) && decide (c.toNat ≤ 57)

/-- Lowercase ASCII letter. -/
def lowerLetter (c : Char) : Bool :=
  decide (97 ≤ c.toNat) && decide (c.toNat ≤ 122)

/-- Case-insensitive character comparison, as used by `/.../i` regexes. -/
def lowerEq (a b : Char) : Bool :=
  a.toLower == b.toLower

/-! ## Product records and deduplication

`interface Product` of the service, plus the dedup idiom
`products.filter((product, index, self) => index === self.findIndex((p) => p.productId === product.productId))`
that appears verbatim both in `extractProductsFromDocuments` and in
`addMessage`. -/

structure Product where
  name : String
  productId : String
  description : String
deriving DecidableEq, Repr

/-- One step of the JS dedup filter: the element at position `i` of the
original list `all` is kept iff `i` equals the first index of `all`
holding the same `productId`.  `dedupFrom all i xs` filters the slice `xs`
of `all` that starts at position `i`. -/
def dedupFrom (all : List Product) : Nat → List Product → List Product
  | _, [] => []
  | i, p :: ps =>
    if all.findIdx (fun q => q.productId == p.productId) == i
    then p :: dedupFrom all (i + 1) ps
    else dedupFrom all (i + 1) ps

/-- Deduplication by `productId`, keeping first occurrences:
`products.filter((product, index, self) => index === self.findIndex((p) => p.productId === product.productId))`. -/
def dedupByProductId (products : List Product) : List Product :=
  dedupFrom products 0 products

theorem dedupFrom_cons_all (a : Product) (l : List Product) :
    ∀ (xs : List Product) (i : Nat),
      dedupFrom (a :: l) (i + 1) xs =
        (dedupFrom l i xs).filter (fun q => !(a.productId == q.productId)) := by
  intro xs
  induction xs with
  | nil => intro i; rfl
  | cons p ps ih =>
    intro i
    have hstep : (a :: l).findIdx (fun q => q.productId == p.productId) =
        (bif a.productId == p.productId then 0
         else l.findIdx (fun q => q.productId == p.productId) + 1) := by
      simpa using List.findIdx_cons (p := fun q => q.productId == p.productId) (b := a)
        (l := l)
    cases hk : (a.productId == p.productId) with
    | true =>
      have hc : (((a :: l).findIdx (fun q => q.productId == p.productId)) == i + 1) = false := by
        rw [hstep, hk]
        simp
      simp only [dedupFrom, hc, Bool.false_eq_true, if_false, ih (i + 1)]
      by_cases hl : (l.findIdx (fun q => q.productId == p.productId)) = i
      · simp [hl, List.filter_cons, hk]
      · simp [hl]
    | false =>
      have hc : (((a :: l).findIdx (fun q => q.productId == p.productId)) == i + 1) =
          ((l.findIdx (fun q => q.productId == p.productId)) == i) := by
        rw [hstep, hk]
        simp only [Bool.cond_false]
        by_cases hx : (l.findIdx (fun q => q.productId == p.productId)) = i
        · simp [hx]
        · have hx2 : (l.findIdx (fun q => q.productId == p.productId)) + 1 ≠ i + 1 := by
            omega
          simp [hx, hx2]
      simp only [dedupFrom, hc, ih (i + 1)]
      by_cases hl : (l.findIdx (fun q => q.productId == p.productId)) = i
      · simp [hl, List.filter_cons, hk]
      · simp [hl]

/-- Unfolding of the dedup filter at a cons: the head is always kept and the
tail is the dedup of the rest with the head's key filtered out. -/
theorem dedupByProductId_cons (a : Product) (l : List Product) :
    dedupByProductId (a :: l) =
      a :: (dedupByProductId l).filter (fun q => !(a.productId == q.productId)) := by
  unfold dedupByProductId
  show dedupFrom (a :: l) 0 (a :: l) = _
  have hhead : ((a :: l).findIdx (fun q => q.productId == a.productId) == 0) = true := by
    rw [List.findIdx_cons]
    simp
  rw [dedupFrom]
  rw [if_pos (by simpa using hhead)]
  rw [show (0 + 1) = 1 from rfl]
  exact congrArg (a :: ·) (dedupFrom_cons_all a l l 0)

/-- Keys of the dedup output are pairwise distinct. -/
theorem dedupByProductId_pairwise (l : List Product) :
    (dedupByProductId l).Pairwise (fun p q => p.productId ≠ q.productId) := by
  induction l with
  | nil => simp [dedupByProductId, dedupFrom]
  | cons a l ih =>
    rw [dedupByProductId_cons]
    refine List.Pairwise.cons ?_ ?_
    · intro q hq
      have := List.of_mem_filter hq
      simpa using this
    · exact ih.sublist (List.filter_sublist _)

/-- Dedup is the identity on lists whose keys are already pairwise distinct. -/
theorem dedupByProductId_eq_self (l : List Product)
    (h : l.Pairwise (fun p q => p.productId ≠ q.productId)) :
    dedupByProductId l = l := by
  induction l with
  | nil => rfl
  | cons a l ih =>
    rw [dedupByProductId_cons]
    rcases List.pairwise_cons.mp h with ⟨ha, hl⟩
    rw [ih hl]
    have : l.filter (fun q => !(a.productId == q.productId)) = l := by
      apply List.filter_eq_self.mpr
      intro q hq
      simp [ha q hq]
    rw [this]

/-- Claim C2.  Deduplication by `productId` is idempotent, and the
deduplicated list keeps exactly the first occurrence of each `productId`:
every kept record is the first record of the input with its key, and every
key of the input is represented in the output. -/
theorem dedup_idempotent_keeps_first (l : List Product) :
    dedupByProductId (dedupByProductId l) = dedupByProductId l ∧
    (∀ p ∈ dedupByProductId l,
      l.find? (fun q => q.productId == p.productId) = some p) ∧
    (∀ q ∈ l, ∃ p ∈ dedupByProductId l, p.productId = q.productId) := by
  refine ⟨dedupByProductId_eq_self _ (dedupByProductId_pairwise l), ?_, ?_⟩
  · induction l with
    | nil => intro p hp; simp [dedupByProductId, dedupFrom] at hp
    | cons a l ih =>
      intro p hp
      rw [dedupByProductId_cons] at hp
      rcases List.mem_cons.mp hp with h | h
      · subst h
        exact List.find?_cons_of_pos _ (by simp)
      · have hmem : p ∈ dedupByProductId l := List.mem_of_mem_filter h
        have hne : (a.productId == p.productId) = false := by
          have := List.of_mem_filter h
          simpa using this
        rw [List.find?_cons_of_neg _ (by simp [hne])]
        exact ih p hmem
  · induction l with
    | nil => intro q hq; simp at hq
    | cons a l ih =>
      intro q hq
      rw [dedupByProductId_cons]
      rcases List.mem_cons.mp hq with h | h
      · exact ⟨a, List.mem_cons_self a _, by rw [h]⟩
      · rcases ih q h with ⟨p, hp, hk⟩
        by_cases hap : a.productId = p.productId
        · exact ⟨a, List.mem_cons_self a _, hap.trans hk⟩
        · refine ⟨p, List.mem_cons_of_mem _ ?_, hk⟩
          apply List.mem_filter.mpr
          exact ⟨hp, by simp [hap]⟩

/-- Claim C2 witness: the theorem evaluated on a concrete list with a
repeated `productId`. -/
theorem dedup_idempotent_keeps_first_witness :
    (⟨"A", "1", "d"⟩ : Product) ∈ dedupByProductId [⟨"A", "1", "d"⟩, ⟨"B", "1", "e"⟩] ∧
    [(⟨"A", "1", "d"⟩ : Product), ⟨"B", "1", "e"⟩].find?
      (fun q => q.productId == (⟨"A", "1", "d"⟩ : Product).productId) = some ⟨"A", "1", "d"⟩ :=
  ⟨by decide,
   (dedup_idempotent_keeps_first [⟨"A", "1", "d"⟩, ⟨"B", "1", "e"⟩]).2.1
     ⟨"A", "1", "d"⟩ (by decide)⟩

/-! ## Field-level reconciliation merge

The enrichment step of `addMessage`: document-derived products are merged
with products re-extracted from the final assistant text; a field is taken
from the assistant-text record only when the document-derived field still
holds its placeholder/sentinel default and the assistant-text field does
not. -/

/-- Placeholder name synthesized for a product with no extracted name:
the template literal `Product dollar-braces-productId`. -/
def productNamePlaceholder (productId : String) : String :=
  "Product " ++ productId

/-- Sentinel description for a product with no extracted description. -/
def noDescriptionSentinel : String :=
  "No description available"

/-- The merge body of `uniqueProducts.map(...)` in `addMessage` for a
document-derived `product` and the assistant-text record `assistantProduct`
found for the same identifier. -/
def reconcileFields (product assistantProduct : Product) : Product :=
  { productId := product.productId,
    name :=
      if product.name == productNamePlaceholder product.productId &&
         !(assistantProduct.name == productNamePlaceholder product.productId)
      then assistantProduct.name
      else product.name,
    description :=
      if product.description == noDescriptionSentinel &&
         !(assistantProduct.description == noDescriptionSentinel)
      then assistantProduct.description
      else product.description }

/-- The full map body: look up the assistant-text record with the same
`productId`; merge when found, keep the record unchanged otherwise. -/
def reconcileProduct (product : Product) (assistantProducts : List Product) : Product :=
  match assistantProducts.find? (fun ap => ap.productId == product.productId) with
  | some assistantProduct => reconcileFields product assistantProduct
  | none => product

/-- The enrichment pass `uniqueProducts.map(product => ...)` of `addMessage`. -/
def enrichProducts (uniqueProducts assistantProducts : List Product) : List Product :=
  uniqueProducts.map (fun product => reconcileProduct product assistantProducts)

/-- Claim C3.  Reconciliation monotonicity: a field already holding a
non-placeholder value is never overwritten, and a field is adopted from the
assistant-text record exactly when the document-derived field is still at
its placeholder/sentinel default while the assistant-text field is not. -/
theorem reconcile_monotone (p ap : Product) :
    ((reconcileFields p ap).name =
      if p.name = productNamePlaceholder p.productId ∧
         ap.name ≠ productNamePlaceholder p.productId
      then ap.name else p.name) ∧
    ((reconcileFields p ap).description =
      if p.description = noDescriptionSentinel ∧
         ap.description ≠ noDescriptionSentinel
      then ap.description else p.description) ∧
    (p.name ≠ productNamePlaceholder p.productId → (reconcileFields p ap).name = p.name) ∧
    (p.description ≠ noDescriptionSentinel →
      (reconcileFields p ap).description = p.description) ∧
    ((reconcileFields p ap).name ≠ p.name →
      p.name = productNamePlaceholder p.productId ∧
      ap.name ≠ productNamePlaceholder p.productId ∧
      (reconcileFields p ap).name = ap.name) ∧
    ((reconcileFields p ap).description ≠ p.description →
      p.description = noDescriptionSentinel ∧
      ap.description ≠ noDescriptionSentinel ∧
      (reconcileFields p ap).description = ap.description) := by
  unfold reconcileFields
  by_cases h1 : p.name = productNamePlaceholder p.productId <;>
    by_cases h2 : ap.name = productNamePlaceholder p.productId <;>
      by_cases h3 : p.description = noDescriptionSentinel <;>
        by_cases h4 : ap.description = noDescriptionSentinel <;>
          simp_all

/-- Claim C3 witness: the theorem applied at concrete records whose name is
still at the placeholder while the description is not. -/
theorem reconcile_monotone_witness :
    (reconcileFields ⟨"Product 7", "7", "real desc"⟩ ⟨"Gadget", "7", "No description available"⟩).name
      = "Gadget" ∧
    (reconcileFields ⟨"Product 7", "7", "real desc"⟩ ⟨"Gadget", "7", "No description available"⟩).description
      = "real desc" := by
  have h := reconcile_monotone ⟨"Product 7", "7", "real desc"⟩
    ⟨"Gadget", "7", "No description available"⟩
  refine ⟨?_, ?_⟩
  · rw [h.1]
    rw [if_pos (by decide)]
  · exact h.2.2.2.1 (by decide)

/-! ## Retry wrapper (`withRetry`)

The asynchronous operation is modelled as a deterministic outcome per
zero-based attempt index (`fn : Nat → Except String α`, the error being the
thrown `Error`'s message).  The model returns the final outcome together
with the number of invocations of the operation and the list of back-off
delays slept between attempts. -/

/-- Trace of one `withRetry` run. -/
structure RetryTrace (α : Type) where
  outcome : Except String α
  calls : Nat
  delays : List Nat
deriving Repr

/-- Error classification of `withRetry`: a configuration error
(message containing "does not exist" or "Missing Supabase") is never
retried. -/
def isConfigError (msg : String) : Bool :=
  includesSub msg "does not exist" || includesSub msg "Missing Supabase"

/-- The `for (let i = 0; i < maxRetries; i++)` loop of `withRetry`.
`i` is the current attempt index and `rem` the number of attempts that are
still allowed (including the current one); `lastError` is the accumulator
variable of the source.  On a retryable failure with attempts remaining the
loop sleeps `baseDelay * 2 ^ i` and continues. -/
def withRetryGo (fn : Nat → Except String α) (baseDelay : Nat) :
    Nat → Nat → Option String → RetryTrace α
  | _, 0, lastError => ⟨.error (lastError.getD "Failed after retries"), 0, []⟩
  | i, rem + 1, _ =>
    match fn i with
    | .ok v => ⟨.ok v, 1, []⟩
    | .error e =>
      if isConfigError e then ⟨.error e, 1, []⟩
      else if rem == 0 then ⟨.error e, 1, []⟩
      else
        let r := withRetryGo fn baseDelay (i + 1) rem (some e)
        ⟨r.outcome, r.calls + 1, baseDelay * 2 ^ i :: r.delays⟩

/-- The `withRetry` wrapper (defaults in the source: `maxRetries = 3`,
`baseDelay = 1000`). -/
def withRetry (fn : Nat → Except String α) (maxRetries : Nat := 3)
    (baseDelay : Nat := 1000) : RetryTrace α :=
  withRetryGo fn baseDelay 0 maxRetries none

theorem withRetryGo_err_step (fn : Nat → Except String α) (baseDelay i rem : Nat)
    (le : Option String) (e : String) (he : fn i = .error e)
    (hce : isConfigError e = false) (hrem : rem ≠ 0) :
    withRetryGo fn baseDelay i (rem + 1) le =
      ⟨(withRetryGo fn baseDelay (i + 1) rem (some e)).outcome,
       (withRetryGo fn baseDelay (i + 1) rem (some e)).calls + 1,
       baseDelay * 2 ^ i :: (withRetryGo fn baseDelay (i + 1) rem (some e)).delays⟩ := by
  simp only [withRetryGo, he, hce, Bool.false_eq_true, if_false,
    show (rem == 0) = false by simpa using hrem]

theorem withRetryGo_success (fn : Nat → Except String α) (baseDelay : Nat) :
    ∀ (k i rem : Nat) (le : Option String) (v : α),
      k < rem →
      (∀ j, j < k → ∃ e, fn (i + j) = .error e ∧ isConfigError e = false) →
      fn (i + k) = .ok v →
      withRetryGo fn baseDelay i rem le =
        ⟨.ok v, k + 1, (List.range k).map (fun j => baseDelay * 2 ^ (i + j))⟩ := by
  intro k
  induction k with
  | zero =>
    intro i rem le v hk _ hok
    match rem, hk with
    | rem + 1, _ =>
      rw [show i + 0 = i from rfl] at hok
      simp [withRetryGo, hok]
  | succ k ih =>
    intro i rem le v hk herr hok
    match rem, hk with
    | rem + 1, _ =>
      rcases herr 0 (Nat.succ_pos k) with ⟨e, he, hce⟩
      rw [show i + 0 = i from rfl] at he
      have hrem : rem ≠ 0 := by omega
      simp only [withRetryGo, he, hce, Bool.false_eq_true, if_false,
        show (rem == 0) = false by simpa using hrem]
      have hrec := ih (i + 1) rem (some e) v (by omega)
        (fun j hj => by
          rcases herr (j + 1) (by omega) with ⟨e', he', hce'⟩
          exact ⟨e', by rw [show i + 1 + j = i + (j + 1) by omega]; exact he', hce'⟩)
        (by rw [show i + 1 + k = i + (k + 1) by omega]; exact hok)
      rw [hrec]
      have hmap : baseDelay * 2 ^ i ::
          (List.range k).map (fun j => baseDelay * 2 ^ (i + 1 + j)) =
          (List.range (k + 1)).map (fun j => baseDelay * 2 ^ (i + j)) := by
        rw [List.range_succ_eq_map]
        simp only [List.map_cons, List.map_map]
        refine congrArg₂ (· :: ·) (by rw [Nat.add_zero]) ?_
        apply List.map_congr_left
        intro j _
        simp only [Function.comp_apply]
        rw [show i + 1 + j = i + (j + 1) by omega]
      rw [← hmap]

theorem withRetryGo_all_fail (fn : Nat → Except String α) (baseDelay : Nat) :
    ∀ (rem i : Nat) (le : Option String),
      1 ≤ rem →
      (∀ j, j < rem → ∃ e, fn (i + j) = .error e ∧ isConfigError e = false) →
      ∃ e, fn (i + (rem - 1)) = .error e ∧
        withRetryGo fn baseDelay i rem le =
          ⟨.error e, rem, (List.range (rem - 1)).map (fun j => baseDelay * 2 ^ (i + j))⟩ := by
  intro rem
  induction rem with
  | zero => intro i le h; omega
  | succ rem ih =>
    intro i le _ herr
    cases rem with
    | zero =>
      rcases herr 0 (by omega) with ⟨e, he, hce⟩
      rw [show i + 0 = i from rfl] at he
      refine ⟨e, by simpa using he, ?_⟩
      simp [withRetryGo, he, hce]
    | succ rem =>
      rcases herr 0 (by omega) with ⟨e, he, hce⟩
      rw [show i + 0 = i from rfl] at he
      rcases ih (i + 1) (some e) (by omega)
        (fun j hj => by
          rcases herr (j + 1) (by omega) with ⟨e', he', hce'⟩
          exact ⟨e', by rw [show i + 1 + j = i + (j + 1) by omega]; exact he', hce'⟩)
        with ⟨e', he', hgo⟩
      have he2 : fn (i + (rem + 1 + 1 - 1)) = .error e' := by
        rw [show i + (rem + 1 + 1 - 1) = i + 1 + (rem + 1 - 1) by omega]
        exact he'
      refine ⟨e', he2, ?_⟩
      rw [withRetryGo_err_step fn baseDelay i (rem + 1) le e he hce (by omega), hgo]
      refine congrArg₂ (RetryTrace.mk (Except.error e')) rfl ?_
      rw [show (rem + 1 + 1 - 1) = rem + 1 by omega]
      rw [List.range_succ_eq_map]
      simp only [List.map_cons, List.map_map]
      refine congrArg₂ (· :: ·) (by rw [Nat.add_zero]) ?_
      apply List.map_congr_left
      intro j _
      simp only [Function.comp_apply]
      rw [show i + 1 + j = i + (j + 1) by omega]

/-- Claim C4.  The retry wrapper: (a) an operation failing retryably on the
first `n - 1` attempts and succeeding on attempt `n - 1` (zero-based), with
`n ≤ maxRetries`, yields the success value after exactly `n` invocations,
with the delay before attempt `i + 1` equal to `baseDelay * 2 ^ i`; (b) an
operation whose first failure message matches a non-retryable marker is
invoked exactly once and fails immediately; (c) an operation that fails
retryably on every attempt is invoked exactly `maxRetries` times and the
wrapper fails with the last observed error, again with delays
`baseDelay * 2 ^ i`. -/
theorem withRetry_contract {α : Type} (maxRetries baseDelay : Nat) :
    (∀ (fn : Nat → Except String α) (n : Nat) (v : α),
      1 ≤ n → n ≤ maxRetries →
      (∀ j, j < n - 1 → ∃ e, fn j = .error e ∧ isConfigError e = false) →
      fn (n - 1) = .ok v →
      withRetry fn maxRetries baseDelay =
        ⟨.ok v, n, (List.range (n - 1)).map (fun j => baseDelay * 2 ^ j)⟩) ∧
    (∀ (fn : Nat → Except String α) (e : String),
      1 ≤ maxRetries → fn 0 = .error e → isConfigError e = true →
      withRetry fn maxRetries baseDelay = ⟨.error e, 1, []⟩) ∧
    (∀ (fn : Nat → Except String α),
      1 ≤ maxRetries →
      (∀ j, j < maxRetries → ∃ e, fn j = .error e ∧ isConfigError e = false) →
      ∃ e, fn (maxRetries - 1) = .error e ∧
        withRetry fn maxRetries baseDelay =
          ⟨.error e, maxRetries, (List.range (maxRetries - 1)).map (fun j => baseDelay * 2 ^ j)⟩) := by
  refine ⟨?_, ?_, ?_⟩
  · intro fn n v h1 h2 herr hok
    have := withRetryGo_success fn baseDelay (n - 1) 0 maxRetries none v
      (by omega) (fun j hj => by simpa using herr j hj) (by simpa using hok)
    unfold withRetry
    rw [this]
    have : n - 1 + 1 = n := by omega
    simp [this]
  · intro fn e h1 herr hce
    unfold withRetry
    match maxRetries, h1 with
    | m + 1, _ => simp [withRetryGo, herr, hce]
  · intro fn h1 herr
    rcases withRetryGo_all_fail fn baseDelay maxRetries 0 none h1
      (fun j hj => by simpa using herr j hj) with ⟨e, he, hgo⟩
    exact ⟨e, by simpa using he, by unfold withRetry; rw [hgo]; simp⟩

/-- Claim C4 witness: the three parts of the contract applied to concrete
operations with `maxRetries = 3`, `baseDelay = 10`. -/
theorem withRetry_contract_witness :
    withRetry (fun j => if j < 2 then .error "boom" else .ok 42) 3 10 =
      ⟨.ok 42, 3, [10, 20]⟩ ∧
    withRetry (fun _ => (.error "x does not exist" : Except String Nat)) 3 10 =
      ⟨.error "x does not exist", 1, []⟩ ∧
    withRetry (fun j => if j == 0 then (.error "e0" : Except String Nat)
        else if j == 1 then .error "e1" else .error "e2") 3 10 =
      ⟨.error "e2", 3, [10, 20]⟩ := by
  refine ⟨?_, ?_, ?_⟩
  · have h := (withRetry_contract (α := Nat) 3 10).1
      (fun j => if j < 2 then .error "boom" else .ok 42) 3 42
      (by decide) (by decide)
      (fun j hj => ⟨"boom", by
        have : j < 2 := by omega
        simp [this], by decide⟩)
      (by norm_num)
    rw [h]
    rfl
  · exact (withRetry_contract (α := Nat) 3 10).2.1
      (fun _ => .error "x does not exist") "x does not exist"
      (by decide) rfl (by decide)
  · rcases (withRetry_contract (α := Nat) 3 10).2.2
      (fun j => if j == 0 then (.error "e0" : Except String Nat)
        else if j == 1 then .error "e1" else .error "e2")
      (by decide)
      (fun j hj =>
        ⟨if j == 0 then "e0" else if j == 1 then "e1" else "e2", by
          by_cases h0 : j = 0
          · simp [h0]
          · by_cases h1 : j = 1 <;> simp [h0, h1], by
          by_cases h0 : j = 0
          · simp [h0]; decide
          · by_cases h1 : j = 1 <;> simp [h0, h1] <;> decide⟩)
      with ⟨e, he, hw⟩
    have he2 : e = "e2" := by
      have := he
      norm_num at this
      exact this.symm
    rw [hw, he2]
    rfl

/-! ## Knowledge search (`searchSupabaseEmbedding`)

The remote embedding provider and the Supabase RPC are modelled as oracle
outcomes.  `SupabaseDocument` mirrors the `SupabaseDocument` type of the
service; metadata values reach the extraction code only through `String()`
coercion and `||` fallbacks, so the metadata bag is modelled as
string-valued key/value pairs, and the similarity score (which the pipeline
never inspects) as an integer. -/

structure SupabaseDocument where
  id : String
  content : String
  metadata : List (String × String)
  similarity : Int
deriving DecidableEq, Repr

/-- A failure reported by the Supabase RPC (`error.code`, `error.message`). -/
structure RpcFailure where
  code : String
  message : String
deriving DecidableEq, Repr

/-- Trace of one `searchSupabaseEmbedding` run: the returned / thrown
outcome plus how many times the embedding provider and the RPC backend
were contacted. -/
structure SearchTrace where
  result : Except String (List SupabaseDocument)
  embeddingCalls : Nat
  rpcCalls : Nat
deriving Repr

/-- The `getEmbedding` error wrapper: provider failures are rethrown as
`Failed to create embedding: message`. -/
def getEmbeddingResult (embeddingOracle : Except String (List Float)) :
    Except String (List Float) :=
  match embeddingOracle with
  | .ok v => .ok v
  | .error e => .error ("Failed to create embedding: " ++ e)

/-- Model of `searchSupabaseEmbedding`.  The query is `Option String`
because the tool arguments may omit it (`undefined`).  Steps, as in the
source: reject a falsy or whitespace-only query with an empty result;
obtain the embedding (counting the provider call); reject an empty
embedding with an empty result; call the RPC and classify its failure
(function-missing versus generic). -/
def searchSupabaseEmbedding (embeddingOracle : Except String (List Float))
    (rpcOracle : Except RpcFailure (List SupabaseDocument))
    (query : Option String) : SearchTrace :=
  if !(jsTruthy query) || (jsTrim (query.getD "")).isEmpty then
    ⟨.ok [], 0, 0⟩
  else
    match getEmbeddingResult embeddingOracle with
    | .error e => ⟨.error e, 1, 0⟩
    | .ok embedding =>
      if embedding.isEmpty then ⟨.ok [], 1, 0⟩
      else
        match rpcOracle with
        | .error err =>
          if err.code == "P0001" || includesSub err.message "function" ||
             includesSub err.message "does not exist" then
            ⟨.error ("The match_documents function does not exist in Supabase. " ++
              "Please ensure it is created in your database."), 1, 1⟩
          else
            ⟨.error ("Supabase error: " ++ err.message), 1, 1⟩
        | .ok data => ⟨.ok data, 1, 1⟩

/-- Claim C8.  An empty or whitespace-only query yields an empty list (not
an error) without contacting the embedding provider, and an empty embedding
also yields an empty list. -/
theorem search_empty_query_guards (embeddingOracle : Except String (List Float))
    (rpcOracle : Except RpcFailure (List SupabaseDocument)) (query : Option String) :
    ((jsTrim (query.getD "")).isEmpty = true →
      searchSupabaseEmbedding embeddingOracle rpcOracle query = ⟨.ok [], 0, 0⟩) ∧
    (embeddingOracle = .ok [] →
      (searchSupabaseEmbedding embeddingOracle rpcOracle query).result = .ok []) := by
  constructor
  · intro h
    unfold searchSupabaseEmbedding
    rw [if_pos]
    simp [h]
  · intro h
    subst h
    unfold searchSupabaseEmbedding
    by_cases hq : (!(jsTruthy query) || (jsTrim (query.getD "")).isEmpty) = true
    · rw [if_pos hq]
    · rw [if_neg hq]
      simp [getEmbeddingResult]

/-- Claim C8 witness: a whitespace-only query and, separately, an empty
embedding, each at concrete oracles. -/
theorem search_empty_query_guards_witness :
    searchSupabaseEmbedding (.error "down") (.ok []) (some "   ") = ⟨.ok [], 0, 0⟩ ∧
    (searchSupabaseEmbedding (.ok []) (.ok [⟨"d1", "c", [], 1⟩]) (some "widgets")).result
      = .ok [] :=
  ⟨(search_empty_query_guards (.error "down") (.ok []) (some "   ")).1 (by decide),
   (search_empty_query_guards (.ok []) (.ok [⟨"d1", "c", [], 1⟩]) (some "widgets")).2 rfl⟩

/-! ## JSON model

The service exchanges JSON through the platform builtins `JSON.parse` and
`JSON.stringify`.  Both are modelled here on the fragment the service
actually produces and consumes: `JSON.stringify` on objects/arrays of
strings and integers (with the standard short escapes; the service never
feeds it other control characters), and `JSON.parse` on flat objects with
string values (the shape of tool-call arguments).  Brace characters are
referred to by code point. -/

def lbraceChar : Char := Char.ofNat 123

def rbraceChar : Char := Char.ofNat 125

/-- Escaping of one character inside a JSON string literal. -/
def jsonEscapeChar (c : Char) : List Char :=
  if c == '"' then ['\\', '"']
  else if c == '\\' then ['\\', '\\']
  else if c == '\n' then ['\\', 'n']
  else if c == '\t' then ['\\', 't']
  else if c == '\r' then ['\\', 'r']
  else if c == Char.ofNat 8 then ['\\', 'b']
  else if c == Char.ofNat 12 then ['\\', 'f']
  else [c]

/-- Escaping of a JSON string body. -/
def jsonEscape (s : List Char) : List Char :=
  (s.map jsonEscapeChar).flatten

/-- A quoted JSON string literal. -/
def jsonQuote (s : String) : List Char :=
  '"' :: jsonEscape s.data ++ ['"']

/-- Resolution of one escape character after a backslash. -/
def unescChar : Char → Option Char
  | '/' => some '/'
  | 't' => some '\t'
  | 'b' => some (Char.ofNat 8)
  | '"' => some '"'
  | 'r' => some '\r'
  | 'f' => some (Char.ofNat 12)
  | 'n' => some '\n'
  | '\\' => some '\\'
  | _ => none

/-- Parser for a JSON string body (everything after the opening quote),
returning the decoded content and the remainder after the closing quote. -/
def parseStrBody : List Char → Option (List Char × List Char)
  | [] => none
  | c :: rest =>
    if c == '"' then some ([], rest)
    else if c == '\\' then
      match rest with
      | [] => none
      | e :: rest2 =>
        match unescChar e with
        | none => none
        | some u =>
          match parseStrBody rest2 with
          | none => none
          | some (s, r) => some (u :: s, r)
    else
      match parseStrBody rest with
      | none => none
      | some (s, r) => some (c :: s, r)

/-- Parser for the field list of a flat JSON object with string values,
positioned after the opening brace (and any whitespace), on a nonempty
field list.  Returns the fields and the remainder after the closing brace. -/
def parseFields : Nat → List Char → Option (List (String × String) × List Char)
  | 0, _ => none
  | fuel + 1, s =>
    match s with
    | [] => none
    | c :: rest =>
      if c == '"' then
        match parseStrBody rest with
        | none => none
        | some (k, r1) =>
          match r1.dropWhile jsWs with
          | [] => none
          | c2 :: r2 =>
            if c2 == ':' then
              match r2.dropWhile jsWs with
              | [] => none
              | c3 :: r3 =>
                if c3 == '"' then
                  match parseStrBody r3 with
                  | none => none
                  | some (v, r4) =>
                    match r4.dropWhile jsWs with
                    | [] => none
                    | c4 :: r5 =>
                      if c4 == ',' then
                        match parseFields fuel (r5.dropWhile jsWs) with
                        | none => none
                        | some (kvs, r) =>
                          some ((String.mk k, String.mk v) :: kvs, r)
                      else if c4 == rbraceChar then
                        some ([(String.mk k, String.mk v)], r5)
                      else none
                else none
            else none
      else none

/-- Model of `JSON.parse` on a flat object with string values (the shape of
every tool-call argument payload in this service); `none` where
`JSON.parse` would throw, or where the text lies outside this fragment. -/
def parseJsonFlat (str : String) : Option (List (String × String)) :=
  match str.data.dropWhile jsWs with
  | [] => none
  | c :: rest =>
    if c == lbraceChar then
      match rest.dropWhile jsWs with
      | [] => none
      | c2 :: rest2 =>
        if c2 == rbraceChar then
          if (rest2.dropWhile jsWs).isEmpty then some [] else none
        else
          match parseFields str.data.length (c2 :: rest2) with
          | none => none
          | some (kvs, r) => if (r.dropWhile jsWs).isEmpty then some kvs else none
    else none

/-- JS object property access on parsed JSON fields (later duplicate keys
override earlier ones, as in `JSON.parse`). -/
def jsObjGet (kvs : List (String × String)) (key : String) : Option String :=
  (kvs.reverse.find? (fun kv => kv.1 == key)).map (fun kv => kv.2)

/-- Comma-joined concatenation, as `JSON.stringify` lays out object fields
and array elements. -/
def joinComma : List (List Char) → List Char
  | [] => []
  | [x] => x
  | x :: y :: xs => x ++ ',' :: joinComma (y :: xs)

/-- The exact text of `JSON.stringify(x)` for a flat object with string
values (no whitespace, insertion order). -/
def stringifyFlatObj (kvs : List (String × String)) : String :=
  String.mk (lbraceChar ::
    joinComma (kvs.map (fun kv => jsonQuote kv.1 ++ ':' :: jsonQuote kv.2)) ++
    [rbraceChar])

theorem parseStrBody_quote (s : List Char) : parseStrBody ('"' :: s) = some ([], s) := by
  rw [parseStrBody.eq_def]
  simp

theorem parseStrBody_esc (e u : Char) (hu : unescChar e = some u) (s : List Char) :
    parseStrBody ('\\' :: e :: s) =
      match parseStrBody s with
      | none => none
      | some (t, r) => some (u :: t, r) := by
  rw [parseStrBody.eq_def]
  simp [show ('\\' == '"') = false from rfl, hu]

theorem parseStrBody_other (c : Char) (h1 : (c == '"') = false) (h2 : (c == '\\') = false)
    (s : List Char) :
    parseStrBody (c :: s) =
      match parseStrBody s with
      | none => none
      | some (t, r) => some (c :: t, r) := by
  rw [parseStrBody.eq_def]
  simp [h1, h2]

theorem parseStrBody_roundtrip : ∀ (s rest : List Char),
    parseStrBody (jsonEscape s ++ '"' :: rest) = some (s, rest) := by
  intro s
  induction s with
  | nil =>
    intro rest
    rw [show jsonEscape [] = [] from rfl, List.nil_append, parseStrBody_quote]
  | cons c cs ih =>
    intro rest
    have hesc : jsonEscape (c :: cs) = jsonEscapeChar c ++ jsonEscape cs := by
      simp [jsonEscape]
    rw [hesc, List.append_assoc]
    by_cases h1 : c = '"'
    · subst h1
      rw [show jsonEscapeChar '"' = ['\\', '"'] from rfl]
      rw [show (['\\', '"'] ++ (jsonEscape cs ++ '"' :: rest)) =
        '\\' :: '"' :: (jsonEscape cs ++ '"' :: rest) from rfl]
      rw [parseStrBody_esc '"' '"' rfl, ih rest]
    · by_cases h2 : c = '\\'
      · subst h2
        rw [show jsonEscapeChar '\\' = ['\\', '\\'] from rfl]
        rw [show (['\\', '\\'] ++ (jsonEscape cs ++ '"' :: rest)) =
          '\\' :: '\\' :: (jsonEscape cs ++ '"' :: rest) from rfl]
        rw [parseStrBody_esc '\\' '\\' rfl, ih rest]
      · by_cases h3 : c = '\n'
        · subst h3
          rw [show jsonEscapeChar '\n' = ['\\', 'n'] from rfl]
          rw [show (['\\', 'n'] ++ (jsonEscape cs ++ '"' :: rest)) =
            '\\' :: 'n' :: (jsonEscape cs ++ '"' :: rest) from rfl]
          rw [parseStrBody_esc 'n' '\n' rfl, ih rest]
        · by_cases h4 : c = '\t'
          · subst h4
            rw [show jsonEscapeChar '\t' = ['\\', 't'] from rfl]
            rw [show (['\\', 't'] ++ (jsonEscape cs ++ '"' :: rest)) =
              '\\' :: 't' :: (jsonEscape cs ++ '"' :: rest) from rfl]
            rw [parseStrBody_esc 't' '\t' rfl, ih rest]
          · by_cases h5 : c = '\r'
            · subst h5
              rw [show jsonEscapeChar '\r' = ['\\', 'r'] from rfl]
              rw [show (['\\', 'r'] ++ (jsonEscape cs ++ '"' :: rest)) =
                '\\' :: 'r' :: (jsonEscape cs ++ '"' :: rest) from rfl]
              rw [parseStrBody_esc 'r' '\r' rfl, ih rest]
            · by_cases h6 : c = Char.ofNat 8
              · subst h6
                rw [show jsonEscapeChar (Char.ofNat 8) = ['\\', 'b'] from rfl]
                rw [show (['\\', 'b'] ++ (jsonEscape cs ++ '"' :: rest)) =
                  '\\' :: 'b' :: (jsonEscape cs ++ '"' :: rest) from rfl]
                rw [parseStrBody_esc 'b' (Char.ofNat 8) rfl, ih rest]
              · by_cases h7 : c = Char.ofNat 12
                · subst h7
                  rw [show jsonEscapeChar (Char.ofNat 12) = ['\\', 'f'] from rfl]
                  rw [show (['\\', 'f'] ++ (jsonEscape cs ++ '"' :: rest)) =
                    '\\' :: 'f' :: (jsonEscape cs ++ '"' :: rest) from rfl]
                  rw [parseStrBody_esc 'f' (Char.ofNat 12) rfl, ih rest]
                · have hesc2 : jsonEscapeChar c = [c] := by
                    simp [jsonEscapeChar, h1, h2, h3, h4, h5, h6, h7]
                  rw [hesc2]
                  rw [show ([c] ++ (jsonEscape cs ++ '"' :: rest)) =
                    c :: (jsonEscape cs ++ '"' :: rest) from rfl]
                  rw [parseStrBody_other c (by simp [h1]) (by simp [h2]), ih rest]

/-- `JSON.parse` inverts `JSON.stringify` on the single-field argument
object synthesized by the forced-tool path. -/
theorem parseJsonFlat_roundtrip_query (content : String) :
    parseJsonFlat (stringifyFlatObj [("query", content)]) = some [("query", content)] := by
  have hdata : (stringifyFlatObj [("query", content)]).data =
      lbraceChar :: '"' :: 'q' :: 'u' :: 'e' :: 'r' :: 'y' :: '"' :: ':' :: '"' ::
        (jsonEscape content.data ++ ['"', rbraceChar]) := by
    simp [stringifyFlatObj, joinComma, jsonQuote,
      show jsonEscape ['q', 'u', 'e', 'r', 'y'] = ['q', 'u', 'e', 'r', 'y'] from rfl,
      show "query".data = ['q', 'u', 'e', 'r', 'y'] from rfl]
  have h1 : parseStrBody ('q' :: 'u' :: 'e' :: 'r' :: 'y' :: '"' ::
      (':' :: '"' :: (jsonEscape content.data ++ ['"', rbraceChar]))) =
      some (['q', 'u', 'e', 'r', 'y'],
        ':' :: '"' :: (jsonEscape content.data ++ ['"', rbraceChar])) := by
    have := parseStrBody_roundtrip ['q', 'u', 'e', 'r', 'y']
      (':' :: '"' :: (jsonEscape content.data ++ ['"', rbraceChar]))
    rw [show jsonEscape ['q', 'u', 'e', 'r', 'y'] = ['q', 'u', 'e', 'r', 'y'] from rfl] at this
    simpa using this
  have h2 : parseStrBody (jsonEscape content.data ++ ['"', rbraceChar]) =
      some (content.data, [rbraceChar]) :=
    parseStrBody_roundtrip content.data [rbraceChar]
  have hmk : String.mk content.data = content := by cases content; rfl
  unfold parseJsonFlat
  rw [hdata]
  simp only [List.length_cons]
  simp only [List.dropWhile_cons,
    show jsWs lbraceChar = false from rfl, show jsWs '"' = false from rfl,
    show jsWs ':' = false from rfl, show jsWs rbraceChar = false from rfl,
    Bool.false_eq_true, if_false, beq_self_eq_true, if_true,
    show ('"' == rbraceChar) = false from rfl]
  simp only [parseFields, h1,
    show ('"' == '"') = true from rfl, if_true,
    List.dropWhile_cons, show jsWs ':' = false from rfl, Bool.false_eq_true, if_false,
    show (':' == ':') = true from rfl, show jsWs '"' = false from rfl, h2,
    show jsWs rbraceChar = false from rfl,
    show (rbraceChar == ',') = false from rfl,
    show (rbraceChar == rbraceChar) = true from rfl,
    List.dropWhile_nil, List.isEmpty_nil, hmk,
    show String.mk ['q', 'u', 'e', 'r', 'y'] = "query" from rfl]

/-! ## Pattern-scanning utilities

The extraction heuristics of the service are regular-expression scans.
They are embedded as character-list scanners: `scanFirst m s` is
`s.match(re)` (the first position, in order, where the matcher `m`
succeeds), and the individual matchers below transcribe the concrete
regexes of the source.  Recursions that consume a data-dependent number of
characters per step carry an explicit fuel argument (always called with
fuel at least the length of the input, which suffices because every step
consumes at least one character). -/

/-- First-match scan: try the matcher at every suffix, in order (including
the empty suffix, as a regex engine does at the end-of-string position). -/
def scanFirst {β : Type} (m : List Char → Option β) : List Char → Option β
  | [] => m []
  | c :: cs =>
    match m (c :: cs) with
    | some r => some r
    | none => scanFirst m cs

/-- Case-sensitive literal match: consume `lit` from the front of `s`. -/
def stripLit : List Char → List Char → Option (List Char)
  | [], s => some s
  | _ :: _, [] => none
  | p :: ps, c :: cs => if p == c then stripLit ps cs else none

/-- Case-insensitive literal match (for `/.../i` regexes). -/
def stripLitCI : List Char → List Char → Option (List Char)
  | [], s => some s
  | _ :: _, [] => none
  | p :: ps, c :: cs => if lowerEq p c then stripLitCI ps cs else none

/-- The regex piece `\*?` (optional literal star, greedy). -/
def starOpt : List Char → List Char
  | '*' :: t => t
  | s => s

/-- Lazy capture `([\s\S]*?)(?=stop)`: the shortest prefix whose following
position satisfies the (always eventually true, since `stop []` holds)
stop condition. -/
def captureUntil (stop : List Char → Bool) : List Char → List Char
  | [] => []
  | c :: cs => if stop (c :: cs) then [] else c :: captureUntil stop cs

/-- JS `s.replace(/\s*\n\s*/g, ' ')`: every maximal whitespace run that
contains a newline collapses to a single space. -/
def replaceNlRuns : Nat → List Char → List Char
  | 0, _ => []
  | fuel + 1, s =>
    match s with
    | [] => []
    | c :: cs =>
      if jsWs c then
        let run := (c :: cs).takeWhile jsWs
        let rest := (c :: cs).drop run.length
        (if run.contains '\n' then [' '] else run) ++ replaceNlRuns fuel rest
      else c :: replaceNlRuns fuel cs

/-- JS `s.replace(/\s+/g, ' ')`: every maximal whitespace run collapses to
a single space. -/
def collapseWsPlus : Nat → List Char → List Char
  | 0, _ => []
  | fuel + 1, s =>
    match s with
    | [] => []
    | c :: cs =>
      if jsWs c then ' ' :: collapseWsPlus fuel ((c :: cs).dropWhile jsWs)
      else c :: collapseWsPlus fuel cs

/-- The description clean-up chain
`replace(/\s*\n\s*/g, ' ').replace(/\s+/g, ' ').trim()`. -/
def cleanupDescription (d : List Char) : List Char :=
  let d1 := replaceNlRuns d.length d
  jsTrimList (collapseWsPlus d1.length d1)

/-! ## Product extraction from the assistant message
(`extractProductsFromAssistantMessage`) -/

/-- Zero-width test for the section-splitting lookahead
`(?=\d+\.\s*\*\*)`. -/
def numBoldAt (s : List Char) : Bool :=
  let ds := s.takeWhile isDig
  if ds.isEmpty then false
  else
    match s.drop ds.length with
    | '.' :: rest => ['*', '*'].isPrefixOf (rest.dropWhile jsWs)
    | _ => false

/-- The split loop of `message.split(/(?=\d+\.\s*\*\*)/)`: break before
every later position where the lookahead matches (a match at position 0
produces no leading empty segment, as in JS). -/
def splitSectionsGo : List Char → List Char → List (List Char)
  | cur, [] => [cur.reverse]
  | cur, c :: cs =>
    if numBoldAt (c :: cs) && !cur.isEmpty then
      cur.reverse :: splitSectionsGo [c] cs
    else
      splitSectionsGo (c :: cur) cs

def splitSections (s : List Char) : List (List Char) :=
  splitSectionsGo [] s

/-- Matcher for `/\d+\.\s*\*\*([^*]+)\*\*/` (product name from a numbered
bold header), returning the capture. -/
def nameMatchAt (s : List Char) : Option (List Char) :=
  let ds := s.takeWhile isDig
  if ds.isEmpty then none
  else
    match s.drop ds.length with
    | '.' :: r1 =>
      match stripLit ['*', '*'] (r1.dropWhile jsWs) with
      | none => none
      | some r3 =>
        let cap := r3.takeWhile (fun c => !(c == '*'))
        if cap.isEmpty then none
        else
          match stripLit ['*', '*'] (r3.drop cap.length) with
          | some _ => some cap
          | none => none
    | _ => none

/-- Matcher for `/Product ID\*?\*?:\s*(\d+)/i`, returning the digit
capture. -/
def productIdTagAt (s : List Char) : Option (List Char) :=
  match stripLitCI "Product ID".data s with
  | none => none
  | some r1 =>
    match starOpt (starOpt r1) with
    | ':' :: r3 =>
      let ds := (r3.dropWhile jsWs).takeWhile isDig
      if ds.isEmpty then none else some ds
    | _ => none

/-- Continuation loop of the description capture
`(?:\n(?!.*:)[^-\n]+)*`: greedily absorb further lines that contain no
colon, stopping at a line that starts with `-`/newline or contains a
colon. -/
def descCont : Nat → List Char → List Char
  | 0, _ => []
  | fuel + 1, s =>
    match s with
    | '\n' :: rest =>
      let line := rest.takeWhile (fun c => !(c == '\n'))
      if line.contains ':' then []
      else
        let seg := rest.takeWhile (fun c => !(c == '-') && !(c == '\n'))
        if seg.isEmpty then []
        else ('\n' :: seg) ++ descCont fuel (rest.drop seg.length)
    | _ => []

/-- Matcher for
`/Description\*?\*?:\s*([^-\n]+(?:\n(?!.*:)[^-\n]+)*)/i`, returning the
capture. -/
def descTagAt (s : List Char) : Option (List Char) :=
  match stripLitCI "Description".data s with
  | none => none
  | some r1 =>
    match starOpt (starOpt r1) with
    | ':' :: r3 =>
      let r4 := r3.dropWhile jsWs
      let seg1 := r4.takeWhile (fun c => !(c == '-') && !(c == '\n'))
      if seg1.isEmpty then none
      else some (seg1 ++ descCont (r4.drop seg1.length).length (r4.drop seg1.length))
    | _ => none

/-- Uppercase ASCII letter (the `[A-Z]` class). -/
def isUpperAZ (c : Char) : Bool :=
  decide (65 ≤ c.toNat) && decide (c.toNat ≤ 90)

/-- The stop lookahead of the details capture,
`(?=\n\s*-\s*\*\*[A-Z]|$)`. -/
def detailsStopAt (s : List Char) : Bool :=
  match s with
  | [] => true
  | '\n' :: r1 =>
    (match r1.dropWhile jsWs with
     | '-' :: r2 =>
       (match (r2.dropWhile jsWs) with
        | '*' :: '*' :: c :: _ => isUpperAZ c
        | _ => false)
     | _ => false)
  | _ => false

/-- Matcher for
`/Details\*?\*?:\s*([\s\S]*?)(?=\n\s*-\s*\*\*[A-Z]|$)/i`. -/
def detailsTagAt (s : List Char) : Option (List Char) :=
  match stripLitCI "Details".data s with
  | none => none
  | some r1 =>
    match starOpt (starOpt r1) with
    | ':' :: r3 => some (captureUntil detailsStopAt (r3.dropWhile jsWs))
    | _ => none

/-- Processing of one section of the assistant message: optional name from
the numbered bold header, mandatory identifier (no identifier means the
section contributes nothing), description from the `Description:` label or
else the `Details:` label, then clean-up and placeholder/sentinel
defaults. -/
def processSection (sec : List Char) : Option Product :=
  if (jsTrimList sec).isEmpty then none
  else
    let name :=
      match scanFirst nameMatchAt sec with
      | some cap => jsTrimList cap
      | none => []
    match scanFirst productIdTagAt sec with
    | none => none
    | some ds =>
      let description0 :=
        match scanFirst descTagAt sec with
        | some cap => jsTrimList cap
        | none => []
      let description1 :=
        if description0.isEmpty then
          match scanFirst detailsTagAt sec with
          | some cap => jsTrimList cap
          | none => []
        else description0
      let description2 := cleanupDescription description1
      some
        { productId := String.mk ds,
          name := if name.isEmpty then "Product " ++ String.mk ds else String.mk name,
          description :=
            if description2.isEmpty then "No description available"
            else String.mk description2 }

/-- Model of `extractProductsFromAssistantMessage`. -/
def extractProductsFromAssistantMessage (message : String) : List Product :=
  (splitSections message.data).filterMap processSection

/-! ## Product extraction from matched documents
(`extractProductsFromDocuments`) -/

/-- Lookup of a metadata key (`doc.metadata.key`; `none` models
`undefined`). -/
def metaLookup (metadata : List (String × String)) (key : String) : Option String :=
  (metadata.find? (fun kv => kv.1 == key)).map (fun kv => kv.2)

/-- Matcher for `/Product ID[:\s]*(\d+)/i` at one position, returning the
total match length and the digit capture. -/
def productIdColonAt (s : List Char) : Option (Nat × List Char) :=
  match stripLitCI "Product ID".data s with
  | none => none
  | some r1 =>
    let sep := r1.takeWhile (fun c => c == ':' || jsWs c)
    let ds := (r1.drop sep.length).takeWhile isDig
    if ds.isEmpty then none
    else some (10 + sep.length + ds.length, ds)

/-- `content.matchAll(/Product ID[:\s]*(\d+)/gi)`: all non-overlapping
matches in scan order, as (index, length, digits). -/
def productIdMatchAll : Nat → Nat → List Char → List (Nat × Nat × List Char)
  | 0, _, _ => []
  | fuel + 1, pos, s =>
    match s with
    | [] => []
    | _ :: t =>
      match productIdColonAt s with
      | some (len, ds) => (pos, len, ds) :: productIdMatchAll fuel (pos + len) (s.drop len)
      | none => productIdMatchAll fuel (pos + 1) t

def productIdMatches (content : List Char) : List (Nat × Nat × List Char) :=
  productIdMatchAll content.length 0 content

/-- Split on newlines (JS `split('\n')`). -/
def splitOnNlGo : List Char → List Char → List (List Char)
  | cur, [] => [cur.reverse]
  | cur, c :: cs =>
    if c == '\n' then cur.reverse :: splitOnNlGo [] cs
    else splitOnNlGo (c :: cur) cs

def splitOnNl (s : List Char) : List (List Char) :=
  splitOnNlGo [] s

/-- JS `s.replace(/^\d+\.\s*/, '')`. -/
def stripLeadingNumbering (s : List Char) : List Char :=
  let ds := s.takeWhile isDig
  if ds.isEmpty then s
  else
    match s.drop ds.length with
    | '.' :: r => r.dropWhile jsWs
    | _ => s

/-- JS `s.replace(/\*\*/g, '')`. -/
def removeBoldMarkers : Nat → List Char → List Char
  | 0, _ => []
  | fuel + 1, s =>
    match s with
    | [] => []
    | '*' :: '*' :: r => removeBoldMarkers fuel r
    | c :: r => c :: removeBoldMarkers fuel r

/-- JS `s.replace(/^[-•]\s*/, '')`. -/
def stripLeadingBullet (s : List Char) : List Char :=
  match s with
  | c :: r => if c == '-' || c == '•' then r.dropWhile jsWs else c :: r
  | [] => []

/-- Candidate name from the text before a `Product ID` marker: the last
non-empty line, stripped of numbering / bold markers / bullets, rejected
when implausibly long, containing a colon, or containing the word
"description". -/
def deriveNameBefore (before : List Char) : List Char :=
  match ((splitOnNl before).filter (fun l => !(jsTrimList l).isEmpty)).getLast? with
  | none => []
  | some lastLine =>
    let name := jsTrimList (stripLeadingBullet
      (removeBoldMarkers lastLine.length (stripLeadingNumbering lastLine)))
    if decide (100 < name.length) || name.contains ':' ||
       occursIn "description".data (name.map Char.toLower) then []
    else name

/-- The stop lookahead `(?=\n\n|\n\s*[-•]|\nProduct ID|$)` of the
document-description capture. -/
def docDescStopAt (s : List Char) : Bool :=
  match s with
  | [] => true
  | '\n' :: r =>
    (match r with
     | '\n' :: _ => true
     | _ => false)
    || (match r.dropWhile jsWs with
        | c :: _ => c == '-' || c == '•'
        | [] => false)
    || (stripLitCI "Product ID".data r).isSome
  | _ => false

/-- Matcher for
`/Description[:\s]*([\s\S]*?)(?=\n\n|\n\s*[-•]|\nProduct ID|$)/i`. -/
def docDescTagAt (s : List Char) : Option (List Char) :=
  match stripLitCI "Description".data s with
  | none => none
  | some r1 =>
    let sep := r1.takeWhile (fun c => c == ':' || jsWs c)
    some (captureUntil docDescStopAt (r1.drop sep.length))

/-- The stop lookahead `(?=\n\n|\n\s*[-•]|$)` of the next-paragraph
capture. -/
def paraStopAt (s : List Char) : Bool :=
  match s with
  | [] => true
  | '\n' :: r =>
    (match r with
     | '\n' :: _ => true
     | _ => false)
    || (match r.dropWhile jsWs with
        | c :: _ => c == '-' || c == '•'
        | [] => false)
  | _ => false

/-- Lazy `(.+?)` capture: at least one non-newline character, extended
minimally until the stop lookahead holds. -/
def dotLazyGo : Nat → List Char → Option (List Char)
  | 0, _ => none
  | fuel + 1, s =>
    match s with
    | [] => none
    | c :: cs =>
      if c == '\n' then none
      else if paraStopAt cs then some [c]
      else
        match dotLazyGo fuel cs with
        | some t => some (c :: t)
        | none => none

/-- Matcher for `/^\s*[-•]?\s*(.+?)(?=\n\n|\n\s*[-•]|$)/` anchored at the
start of the text after a marker. -/
def nextParagraphAt (s : List Char) : Option (List Char) :=
  let r1 := s.dropWhile jsWs
  let r2 :=
    match r1 with
    | c :: rr => if c == '-' || c == '•' then rr.dropWhile jsWs else r1
    | [] => r1
  dotLazyGo r2.length r2

/-- In-place upgrade of the already-extracted product with this
`productId`: a real name replaces the placeholder, a real description
replaces the sentinel. -/
def updateExisting (acc : List Product) (productId : String) (name description : List Char) :
    List Product :=
  match acc with
  | [] => []
  | p :: ps =>
    if p.productId == productId then
      { p with
        name :=
          if !name.isEmpty && p.name == "Product " ++ productId then String.mk name
          else p.name,
        description :=
          if !description.isEmpty && p.description == "No description available" then
            String.mk description
          else p.description } :: ps
    else p :: updateExisting ps productId name description

/-- The body of the per-match loop over `/Product ID[:\s]*(\d+)/gi`
matches: derive name and description around the marker, then either
upgrade the existing record with this identifier or push a new one. -/
def applyIdMatch (content : List Char) (acc : List Product) (m : Nat × Nat × List Char) :
    List Product :=
  let productId := String.mk m.2.2
  let before := content.take m.1
  let name := deriveNameBefore before
  let after := content.drop (m.1 + m.2.1)
  let description :=
    match scanFirst docDescTagAt after with
    | some cap => jsTrimList cap
    | none =>
      match nextParagraphAt after with
      | some cap => jsTrimList cap
      | none => []
  let description2 :=
    if description.isEmpty then description
    else
      let d1 := replaceNlRuns description.length description
      jsTrimList ((collapseWsPlus d1.length d1).take 300)
  if (acc.find? (fun p => p.productId == productId)).isSome then
    updateExisting acc productId name description2
  else
    acc ++ [{ productId := productId,
              name := if name.isEmpty then "Product " ++ productId else String.mk name,
              description :=
                if description2.isEmpty then "No description available"
                else String.mk description2 }]

/-- Marker `(?:Product ID|ID)[:\s]*(\d+)` of the structured-heading scan
(alternation tried left to right). -/
def idMarkerAt (s : List Char) : Option (Nat × List Char) :=
  match productIdColonAt s with
  | some r => some r
  | none =>
    match stripLitCI "ID".data s with
    | none => none
    | some r1 =>
      let sep := r1.takeWhile (fun c => c == ':' || jsWs c)
      let ds := (r1.drop sep.length).takeWhile isDig
      if ds.isEmpty then none
      else some (2 + sep.length + ds.length, ds)

/-- All positions (overlapping scan) where the identifier marker matches. -/
def idMarkerPositions : Nat → Nat → List Char → List (Nat × Nat × List Char)
  | 0, _, _ => []
  | fuel + 1, pos, s =>
    match s with
    | [] => []
    | _ :: t =>
      match idMarkerAt s with
      | some (len, ds) => (pos, len, ds) :: idMarkerPositions fuel (pos + 1) t
      | none => idMarkerPositions fuel (pos + 1) t

/-- The numbering prefix `(?:\d+\.\s*|#+\s*)` of the structured-heading
pattern, split into its mandatory part and its backtrackable tail.
Returns (mandatory length, maximal extra length): for `\d+\.\s*` the
digits and the dot are mandatory (fewer digits leave a digit where the dot
must be) and the whitespace run can be given back char by char; for
`#+\s*` only one hash is mandatory and both the surplus hashes and the
whitespace run can be given back (each surplus hash is followed by a hash,
so its own whitespace run is empty). -/
def structNumberingAt (s : List Char) : Option (Nat × Nat) :=
  let ds := s.takeWhile isDig
  if !ds.isEmpty then
    match s.drop ds.length with
    | '.' :: r => some (ds.length + 1, (r.takeWhile jsWs).length)
    | _ => none
  else
    let hs := s.takeWhile (fun c => c == '#')
    if hs.isEmpty then none
    else some (1, hs.length - 1 + ((s.drop hs.length).takeWhile jsWs).length)

/-- One attempt of the structured-heading pattern with the capture placed
`numPre + w` characters after the anchor: the greedy `([^\n]+)` capture
combined with the lazy middle resolves to the longest line prefix that
still leaves an identifier marker strictly after the capture start.
Returns (consumed length, name capture, digits). -/
def structAttempt (s : List Char) (numPre w : Nat) : Option (Nat × List Char × List Char) :=
  let full := s.drop (numPre + w)
  let line := full.takeWhile (fun c => !(c == '\n'))
  if line.isEmpty then none
  else
    let occ := (idMarkerPositions full.length 0 full).filter (fun m => decide (1 ≤ m.1))
    if occ.isEmpty then none
    else
      let maxPos := (occ.map (fun m => m.1)).foldl Nat.max 0
      if decide (line.length ≤ maxPos) then
        match occ.find? (fun m => decide (line.length ≤ m.1)) with
        | some (q, mlen, ds) => some (numPre + w + q + mlen, line, ds)
        | none => none
      else
        match occ.getLast? with
        | some (q, mlen, ds) => some (numPre + w + q + mlen, full.take q, ds)
        | none => none

/-- Backtracking over the numbering tail: the engine first lets `\s*`
(and surplus hashes) keep everything, then gives the capture one more
character at a time.  Tries `w`, `w - 1`, ..., `0` extra characters. -/
def structBacktrack (s : List Char) (numPre : Nat) : Nat → Option (Nat × List Char × List Char)
  | 0 => structAttempt s numPre 0
  | w + 1 =>
    match structAttempt s numPre (w + 1) with
    | some r => some r
    | none => structBacktrack s numPre w

/-- One match attempt of
`/(?:^|\n)(?:\d+\.\s*|#+\s*)([^\n]+)[\s\S]*?(?:Product ID|ID)[:\s]*(\d+)/gmi`
at an anchored position (after the `^`/`\n` anchor), including the
backtracking of the numbering's `\s*` (and surplus `#`s) into the
`([^\n]+)` capture: `"1. ID: 5"` matches with capture `" "`. -/
def structMatchAt (s : List Char) : Option (Nat × List Char × List Char) :=
  match structNumberingAt s with
  | none => none
  | some (numPre, ext) => structBacktrack s numPre ext

/-- `matchAll` scan for the structured-heading pattern, tracking whether
the current position is a line start (for the `^` anchor under the `m`
flag).  At each position the anchor alternation tries the zero-width `^`
first, then falls back to consuming a `\n`; at a line start that itself
holds a `\n` both alternatives are attempted, in that order. -/
def structMatchAll : Nat → Bool → Nat → List Char → List (Nat × Nat × List Char × List Char)
  | 0, _, _, _ => []
  | fuel + 1, atStart, pos, s =>
    match s with
    | [] => []
    | c :: t =>
      match (match (if atStart then structMatchAt s else none) with
             | some r => some r
             | none =>
               if c == '\n' then
                 match structMatchAt t with
                 | some (len, cap, ds) => some (len + 1, cap, ds)
                 | none => none
               else none) with
      | some (len, cap, ds) =>
        (pos, len, cap, ds) :: structMatchAll fuel false (pos + len) (s.drop len)
      | none => structMatchAll fuel (c == '\n') (pos + 1) t

def structMatches (content : List Char) : List (Nat × Nat × List Char × List Char) :=
  structMatchAll content.length true 0 content

/-- JS `content.indexOf(pat, from)` (absolute index, `none` for `-1`). -/
def indexOfFromGo (pat : List Char) : Nat → Nat → List Char → Option Nat
  | 0, _, _ => none
  | fuel + 1, pos, s =>
    if pat.isPrefixOf s then some pos
    else
      match s with
      | [] => none
      | _ :: t => indexOfFromGo pat fuel (pos + 1) t

/-- The stop lookahead `(?=\n\n|$)` of the block-description capture. -/
def blockDescStopAt (s : List Char) : Bool :=
  match s with
  | [] => true
  | '\n' :: '\n' :: _ => true
  | _ => false

/-- Matcher for `/Description[:\s]*([\s\S]+?)(?=\n\n|$)/i` inside a
structured block. -/
def blockDescTagAt (s : List Char) : Option (List Char) :=
  match stripLitCI "Description".data s with
  | none => none
  | some r1 =>
    let sep := r1.takeWhile (fun c => c == ':' || jsWs c)
    match r1.drop sep.length with
    | [] => none
    | c :: cs => some (c :: captureUntil blockDescStopAt cs)

/-- The body of the structured-heading loop: name from the heading line
(bold markers removed), block bounded by the next blank line, description
from a `Description:` label in the block or else the first 200 characters
of the block. -/
def structBody (content : List Char) (m : Nat × Nat × List Char × List Char) : Product :=
  let name := jsTrimList (removeBoldMarkers m.2.2.1.length m.2.2.1)
  let productId := String.mk m.2.2.2
  let blockEnd := indexOfFromGo ['\n', '\n'] content.length (m.1 + m.2.1)
    (content.drop (m.1 + m.2.1))
  let block :=
    match blockEnd with
    | some e => if decide (0 < e) then (content.drop m.1).take (e - m.1) else content.drop m.1
    | none => content.drop m.1
  let description :=
    match scanFirst blockDescTagAt block with
    | some cap => jsTrimList cap
    | none => block.take 200
  { productId := productId,
    name := if name.isEmpty then "Product " ++ productId else String.mk name,
    description :=
      if description.isEmpty then "No description available" else String.mk description }

/-- Extraction for one matched document: structured metadata first, then a
content scan for `Product ID` markers when the metadata gave nothing or
only a placeholder name, then the structured-heading scan as a last
resort. -/
def extractForDoc (doc : SupabaseDocument) : List Product :=
  let content := doc.content.data
  let metaId := jsOrStr (jsOrStr (metaLookup doc.metadata "productId")
    (metaLookup doc.metadata "product_id")) (metaLookup doc.metadata "id")
  let fromMeta : List Product :=
    if jsTruthy metaId then
      let productId := metaId.getD ""
      let name := ((jsOrStr (jsOrStr (metaLookup doc.metadata "name")
        (metaLookup doc.metadata "product_name")) (metaLookup doc.metadata "title")).getD "")
      let description := ((jsOrStr (metaLookup doc.metadata "description")
        (metaLookup doc.metadata "details")).getD "")
      if !productId.isEmpty && (!name.isEmpty || !description.isEmpty) then
        [{ productId := productId,
           name := if name.isEmpty then "Product " ++ productId else name,
           description := if description.isEmpty then "No description available"
                          else description }]
      else []
    else []
  let afterContentScan :=
    if fromMeta.isEmpty ||
       (match fromMeta.head? with
        | some p => p.name == "Product " ++ p.productId
        | none => false) then
      (productIdMatches content).foldl (applyIdMatch content) fromMeta
    else fromMeta
  if afterContentScan.isEmpty then
    (structMatches content).map (structBody content)
  else afterContentScan

/-- Model of `extractProductsFromDocuments`: per-document extraction, then
the cross-document dedup filter (the same first-occurrence filter idiom as
`dedupByProductId`). -/
def extractProductsFromDocuments (docs : List SupabaseDocument) : List Product :=
  dedupByProductId (docs.map extractForDoc).flatten

/-! ## JSON values and `JSON.stringify`

The tool invoker serializes its result payloads with `JSON.stringify`.
The values it serializes are objects/arrays of strings and integers; they
are modelled by the `Json` type below, and `Json.stringifyStr` produces
the exact serialized text (no whitespace, insertion order, standard
escapes). -/

inductive Json where
  | str (s : String)
  | num (n : Int)
  | arr (elems : List Json)
  | obj (fields : List (String × Json))

mutual

def Json.stringifyChars : Json → List Char
  | .str s => jsonQuote s
  | .num n => (toString n).data
  | .arr es => '[' :: Json.stringifyList es ++ [']']
  | .obj fs => lbraceChar :: Json.stringifyFields fs ++ [rbraceChar]

def Json.stringifyList : List Json → List Char
  | [] => []
  | [e] => Json.stringifyChars e
  | e :: e2 :: es => Json.stringifyChars e ++ ',' :: Json.stringifyList (e2 :: es)

def Json.stringifyFields : List (String × Json) → List Char
  | [] => []
  | [(k, v)] => jsonQuote k ++ ':' :: Json.stringifyChars v
  | (k, v) :: f2 :: fs =>
    jsonQuote k ++ ':' :: Json.stringifyChars v ++ ',' :: Json.stringifyFields (f2 :: fs)

end

def Json.stringifyStr (j : Json) : String :=
  String.mk j.stringifyChars

/-- JSON value of one matched document, with the field order of the
`SupabaseDocument` shape. -/
def docJson (d : SupabaseDocument) : Json :=
  .obj [("id", .str d.id), ("content", .str d.content),
        ("metadata", .obj (d.metadata.map (fun kv => (kv.1, .str kv.2)))),
        ("similarity", .num d.similarity)]

/-- JSON value of one product record (field order of the `Product`
interface). -/
def productJson (p : Product) : Json :=
  .obj [("name", .str p.name), ("productId", .str p.productId),
        ("description", .str p.description)]

/-! ## Tool invoker (`executeToolCall`) -/

/-- The `function` part of a tool call (`name`, JSON `arguments` text). -/
structure ToolFn where
  name : String
  arguments : String
deriving DecidableEq, Repr

/-- One requested tool call. -/
structure ToolCall where
  id : String
  type : String
  function : ToolFn
deriving DecidableEq, Repr

/-- Result of one tool execution: the serialized payload for the model and
the structured product side channel. -/
structure ToolExecOut where
  result : String
  products : List Product
deriving DecidableEq, Repr

/-- The error-hint classifier of the `search_knowledge_base` failure
branch. -/
def classifyHint (msg : String) : String :=
  if includesSub msg "fetch failed" then
    "Network connection issue. Check Supabase URL and internet connection."
  else if includesSub msg "does not exist" then
    "The match_documents function is missing. Please create it in your Supabase database."
  else if includesSub msg "Missing Supabase" then
    "Supabase environment variables are not configured."
  else ""

/-- Payload for a search that found no documents. -/
def noDocsJson : Json :=
  .obj [("message", .str "No documents found matching your query."),
        ("results", .arr []), ("products", .arr [])]

/-- Payload for a successful search. -/
def successJson (docs : List SupabaseDocument) (products : List Product) : Json :=
  .obj [("message", .str ("Found " ++ toString docs.length ++
          " relevant document(s) containing " ++ toString products.length ++ " product(s).")),
        ("results", .arr (docs.map docJson)),
        ("products", .arr (products.map productJson))]

/-- Payload for a failed search.  Stack traces are outside the model, so
the `details` field (set from `error.stack` in the source) and the `code`
field are carried as empty strings. -/
def searchErrorJson (msg : String) : Json :=
  .obj [("error", .str "Failed to search knowledge base"), ("message", .str msg),
        ("details", .str ""), ("hint", .str (classifyHint msg)),
        ("code", .str ""), ("products", .arr [])]

/-- Payload for an unknown tool name. -/
def unknownToolJson (name : String) : Json :=
  .obj [("error", .str ("Unknown tool: " ++ name))]

/-- Model of `executeToolCall`.  The knowledge-base lookup
`withRetry(() => searchSupabaseEmbedding(args.query))` is an oracle
(`search`), since its outcome is determined by the remote providers.  The
argument text is parsed by the `JSON.parse` model first — outside any
`try`, so a malformed argument text makes the whole call throw, modelled
as `Except.error` carrying the parse-failure message. -/
def executeToolCall (search : Option String → Except String (List SupabaseDocument))
    (toolCall : ToolCall) : Except String ToolExecOut :=
  match parseJsonFlat toolCall.function.arguments with
  | none => .error "SyntaxError: Unexpected token in JSON"
  | some args =>
    if toolCall.function.name == "search_knowledge_base" then
      match search (jsObjGet args "query") with
      | .ok docs =>
        if docs.isEmpty then
          .ok ⟨(noDocsJson).stringifyStr, []⟩
        else
          let products := extractProductsFromDocuments docs
          .ok ⟨(successJson docs products).stringifyStr, products⟩
      | .error msg => .ok ⟨(searchErrorJson msg).stringifyStr, []⟩
    else
      .ok ⟨(unknownToolJson toolCall.function.name).stringifyStr, []⟩

/-- Claim C5, counterexample.  `executeToolCall` parses the argument text
with `JSON.parse` outside every `try` block, so a tool call whose
arguments are not valid JSON (here: the empty string) makes it throw —
the claim that it never throws for every tool-call input is false. -/
theorem executeToolCall_throws_counterexample :
    executeToolCall (fun _ => .ok []) ⟨"t1", "function", ⟨"search_knowledge_base", ""⟩⟩ =
      .error "SyntaxError: Unexpected token in JSON" := rfl

/-- Claim C5 as amended.  For every tool call whose argument text parses
as JSON (in particular every payload the completion provider's
schema-checked tool calls or the orchestrator's synthetic call produce),
`executeToolCall` never throws; its serialized result is always the
`JSON.stringify` image of a JSON value; an unknown tool name yields the
serialized unknown-tool payload with an empty product list; and a failure
of the knowledge-base lookup yields the serialized, hint-classified error
payload with an empty product list. -/
theorem executeToolCall_total (search : Option String → Except String (List SupabaseDocument))
    (toolCall : ToolCall) (args : List (String × String))
    (h : parseJsonFlat toolCall.function.arguments = some args) :
    ∃ out : ToolExecOut, executeToolCall search toolCall = .ok out ∧
      (∃ j : Json, out.result = j.stringifyStr) ∧
      (toolCall.function.name ≠ "search_knowledge_base" →
        out = ⟨(unknownToolJson toolCall.function.name).stringifyStr, []⟩) ∧
      (∀ msg, toolCall.function.name = "search_knowledge_base" →
        search (jsObjGet args "query") = .error msg →
        out = ⟨(searchErrorJson msg).stringifyStr, []⟩) := by
  simp only [executeToolCall, h]
  by_cases hname : toolCall.function.name = "search_knowledge_base"
  · rw [if_pos (by simp [hname])]
    match hs : search (jsObjGet args "query") with
    | .ok docs =>
      dsimp only
      by_cases hd : docs.isEmpty
      · rw [if_pos hd]
        exact ⟨_, rfl, ⟨noDocsJson, rfl⟩, fun hc => absurd hname hc,
          fun msg _ hmsg => by cases hmsg⟩
      · rw [if_neg hd]
        exact ⟨_, rfl, ⟨successJson docs (extractProductsFromDocuments docs), rfl⟩,
          fun hc => absurd hname hc,
          fun msg _ hmsg => by cases hmsg⟩
    | .error msg =>
      dsimp only
      exact ⟨_, rfl, ⟨searchErrorJson msg, rfl⟩, fun hc => absurd hname hc,
        fun msg2 _ hmsg => by cases hmsg; rfl⟩
  · rw [if_neg (by simp [hname])]
    exact ⟨_, rfl, ⟨unknownToolJson toolCall.function.name, rfl⟩, fun _ => rfl,
      fun msg hc => absurd hc hname⟩

/-- Claim C5 witness: the amended theorem applied to a concrete failing
lookup with valid JSON arguments. -/
theorem executeToolCall_total_witness :
    ∃ out : ToolExecOut,
      executeToolCall (fun _ => .error "fetch failed")
        ⟨"t1", "function", ⟨"search_knowledge_base", stringifyFlatObj [("query", "hi")]⟩⟩ =
        .ok out ∧
      out = ⟨(searchErrorJson "fetch failed").stringifyStr, []⟩ := by
  rcases executeToolCall_total (fun _ => .error "fetch failed")
      ⟨"t1", "function", ⟨"search_knowledge_base", stringifyFlatObj [("query", "hi")]⟩⟩
      [("query", "hi")] (parseJsonFlat_roundtrip_query "hi") with ⟨out, h1, _, _, h4⟩
  exact ⟨out, h1, h4 "fetch failed" rfl rfl⟩

/-! ## Conversation orchestrator (`addMessage`)

Remote completions are environment inputs: the provider's response to the
first call, to the forced-tool retry call, and to the follow-up call after
tool execution.  The returned `AddMessageOut` is the persisted turn
(user/assistant text) plus the product list of the HTTP response, together
with the trace of provider interactions (completion calls and tool
executions) the orchestration performed, in order. -/

/-- One provider interaction of an orchestration run. -/
inductive ProviderEvent where
  | completionCall
  | toolExecution (name : String)
deriving DecidableEq, Repr

/-- A completion-provider response: optional text content and requested
tool calls (`[]` models both an absent and an empty `tool_calls`). -/
structure Completion where
  content : Option String
  tool_calls : List ToolCall
deriving DecidableEq, Repr

/-- The environment of one orchestration run. -/
structure OrchestrationEnv where
  first : Completion
  forcedSecond : Completion
  followUp : Completion
  search : Option String → Except String (List SupabaseDocument)

/-- The persisted turn, the response products, and the provider trace. -/
structure AddMessageOut where
  userMessage : String
  assistantMessage : Option String
  products : List Product
  events : List ProviderEvent
deriving DecidableEq, Repr

/-- The topic-intent heuristic
`/knowledge\s*base|product|information|what\s+do\s+you\s+have|inventory|catalog/i.test(content)`. -/
def scanAny (p : List Char → Bool) : List Char → Bool
  | [] => p []
  | c :: cs => p (c :: cs) || scanAny p cs

/-- Word sequence with whitespace gaps at one position (`\s+` gaps when
`needPlus`, `\s*` gaps otherwise). -/
def matchWordsAt (needPlus : Bool) : List (List Char) → List Char → Bool
  | [], _ => true
  | [w], s => w.isPrefixOf s
  | w :: w2 :: ws, s =>
    if w.isPrefixOf s then
      let r := s.drop w.length
      (!needPlus || !(r.takeWhile jsWs).isEmpty) &&
        matchWordsAt needPlus (w2 :: ws) (r.dropWhile jsWs)
    else false

def hasGapSeq (needPlus : Bool) (words : List (List Char)) (s : List Char) : Bool :=
  scanAny (matchWordsAt needPlus words) s

/-- `shouldUseSearch` of `addMessage`. -/
def shouldUseSearch (content : String) : Bool :=
  let s := content.data.map Char.toLower
  hasGapSeq false ["knowledge".data, "base".data] s ||
  occursIn "product".data s ||
  occursIn "information".data s ||
  hasGapSeq true ["what".data, "do".data, "you".data, "have".data] s ||
  occursIn "inventory".data s ||
  occursIn "catalog".data s

/-- The synthetic tool call of the forced-tool path
(`id: 'forced-search'`, arguments `JSON.stringify({ query: content })`). -/
def forcedToolCall (content : String) : ToolCall :=
  ⟨"forced-search", "function",
   ⟨"search_knowledge_base", stringifyFlatObj [("query", content)]⟩⟩

/-- Model of `addMessage`.  Notes tying the branches to the source: with no
requested tool calls and a matching heuristic, the forced search runs
outside any per-call `try`, its products are returned only when the retry
completion's content is truthy, and otherwise control falls through to the
plain direct-answer return; on the tool path every requested call is
executed (a per-call failure contributes an error tool message and no
products, never an abort), the accumulated products are deduplicated,
enriched from the follow-up text, and the follow-up's own tool calls are
ignored. -/
def addMessage (env : OrchestrationEnv) (content : String) : Except String AddMessageOut :=
  if env.first.tool_calls.isEmpty then
    if shouldUseSearch content then
      match executeToolCall env.search (forcedToolCall content) with
      | .error e => .error e
      | .ok searchResult =>
        if jsTruthy env.forcedSecond.content then
          .ok ⟨content, env.forcedSecond.content, searchResult.products,
               [.completionCall, .toolExecution "search_knowledge_base", .completionCall]⟩
        else
          .ok ⟨content, jsOrNull env.first.content, [],
               [.completionCall, .toolExecution "search_knowledge_base", .completionCall]⟩
    else
      .ok ⟨content, jsOrNull env.first.content, [], [.completionCall]⟩
  else
    let execs := env.first.tool_calls.map (fun tc => executeToolCall env.search tc)
    let allProducts := (execs.map (fun r =>
      match r with
      | .ok out => out.products
      | .error _ => [])).flatten
    let uniqueProducts := dedupByProductId allProducts
    let finalContent := env.followUp.content
    let afterFallback :=
      if uniqueProducts.isEmpty && jsTruthy finalContent &&
         includesSub (finalContent.getD "") "Product ID" then
        uniqueProducts ++ extractProductsFromAssistantMessage (finalContent.getD "")
      else uniqueProducts
    let enriched :=
      if !afterFallback.isEmpty && jsTruthy finalContent then
        enrichProducts afterFallback (extractProductsFromAssistantMessage (finalContent.getD ""))
      else afterFallback
    .ok ⟨content, jsOrNull finalContent, enriched,
         .completionCall ::
           (env.first.tool_calls.map (fun tc => .toolExecution tc.function.name)) ++
           [.completionCall]⟩

/-- Helper: on parseable arguments `executeToolCall` always returns
normally. -/
theorem executeToolCall_isOk_of_parse
    (search : Option String → Except String (List SupabaseDocument)) (toolCall : ToolCall)
    (args : List (String × String)) (h : parseJsonFlat toolCall.function.arguments = some args) :
    ∃ out, executeToolCall search toolCall = .ok out := by
  simp only [executeToolCall, h]
  by_cases hname : (toolCall.function.name == "search_knowledge_base") = true
  · rw [if_pos hname]
    match search (jsObjGet args "query") with
    | .ok docs =>
      dsimp only
      by_cases hd : docs.isEmpty
      · rw [if_pos hd]; exact ⟨_, rfl⟩
      · rw [if_neg hd]; exact ⟨_, rfl⟩
    | .error msg => exact ⟨_, rfl⟩
  · rw [if_neg hname]
    exact ⟨_, rfl⟩

/-- Claim C1 counterexample environment: the heuristic matches, the first
completion returns text but no tool calls, and the forced retry completion
returns no text. -/
def forcedCounterEnv : OrchestrationEnv :=
  ⟨⟨some "FIRST", []⟩, ⟨none, []⟩, ⟨none, []⟩, fun _ => .ok []⟩

/-- Claim C1, counterexample.  On the forced-tool path with a retry
completion that returns no text, the persisted `assistantMessage` is the
FIRST completion's text, not the second (post-tool) completion's text
(`none` here) — the claim as stated is false. -/
theorem addMessage_forced_text_counterexample :
    shouldUseSearch "inventory" = true ∧
    forcedCounterEnv.first.tool_calls = [] ∧
    (addMessage forcedCounterEnv "inventory").map (fun o => o.assistantMessage) =
      .ok (some "FIRST") ∧
    forcedCounterEnv.forcedSecond.content = none := by
  exact ⟨rfl, rfl, rfl, rfl⟩

/-- Claim C1 as amended.  On every invocation whose user content matches
the intent heuristic and whose first completion requests no tool calls,
the orchestration performs exactly one tool execution and exactly one
additional completion call — the trace is
completion, tool execution, completion (three provider interactions) —
and the persisted `assistantMessage` is the second (post-tool)
completion's text whenever that text is non-null and non-empty; when the
second completion returns no text, the first completion's text is
persisted instead (empty text as null) with an empty product list. -/
theorem addMessage_forced_path (env : OrchestrationEnv) (content : String)
    (h1 : env.first.tool_calls = []) (h2 : shouldUseSearch content = true) :
    ∃ searchResult : ToolExecOut,
      executeToolCall env.search (forcedToolCall content) = .ok searchResult ∧
      addMessage env content = .ok
        ⟨content,
         if jsTruthy env.forcedSecond.content then env.forcedSecond.content
         else jsOrNull env.first.content,
         if jsTruthy env.forcedSecond.content then searchResult.products else [],
         [.completionCall, .toolExecution "search_knowledge_base", .completionCall]⟩ := by
  rcases executeToolCall_isOk_of_parse env.search (forcedToolCall content)
      [("query", content)] (parseJsonFlat_roundtrip_query content) with ⟨sr, hsr⟩
  refine ⟨sr, hsr, ?_⟩
  simp only [addMessage, h1, List.isEmpty_nil, if_true, h2, hsr]
  by_cases hret : jsTruthy env.forcedSecond.content
  · simp [hret]
  · simp [hret]

/-- Claim C1 witness: the amended theorem at a concrete environment where
the second completion returns text. -/
theorem addMessage_forced_path_witness :
    ∃ searchResult : ToolExecOut,
      executeToolCall (fun _ => .ok []) (forcedToolCall "check the inventory") =
        .ok searchResult ∧
      addMessage ⟨⟨some "FIRST", []⟩, ⟨some "SECOND", []⟩, ⟨none, []⟩, fun _ => .ok []⟩
          "check the inventory" = .ok
        ⟨"check the inventory",
         if jsTruthy (some "SECOND") then some "SECOND" else jsOrNull (some "FIRST"),
         if jsTruthy (some "SECOND") then searchResult.products else [],
         [.completionCall, .toolExecution "search_knowledge_base", .completionCall]⟩ :=
  addMessage_forced_path
    ⟨⟨some "FIRST", []⟩, ⟨some "SECOND", []⟩, ⟨none, []⟩, fun _ => .ok []⟩
    "check the inventory" rfl (by decide)

/-- Claim C6.  With zero requested tool calls and a non-matching intent
heuristic the turn persists the first completion's raw text (null when the
provider returned no text, the empty string being coerced to null by the
`|| null` idiom) and the product list is empty; the provider is contacted
exactly once. -/
theorem addMessage_direct_answer (env : OrchestrationEnv) (content : String)
    (h1 : env.first.tool_calls = []) (h2 : shouldUseSearch content = false) :
    addMessage env content =
      .ok ⟨content, jsOrNull env.first.content, [], [.completionCall]⟩ ∧
    (env.first.content = none → jsOrNull env.first.content = none) ∧
    (∀ s, env.first.content = some s → s ≠ "" → jsOrNull env.first.content = some s) ∧
    (env.first.content = some "" → jsOrNull env.first.content = none) := by
  refine ⟨?_, ?_, ?_, ?_⟩
  · simp only [addMessage, h1, List.isEmpty_nil, if_true, h2, Bool.false_eq_true, if_false]
  · intro h; rw [h]; rfl
  · intro s hs hne
    rw [hs]
    unfold jsOrNull jsTruthy
    have hf : s.isEmpty = false := by
      cases hE : s.isEmpty
      · rfl
      · exact absurd ((String.isEmpty_iff s).mp hE) hne
    rw [if_pos (by dsimp only; rw [hf]; rfl)]
  · intro h; rw [h]; rfl

/-- Claim C6 witness. -/
theorem addMessage_direct_answer_witness :
    addMessage ⟨⟨some "hello there", []⟩, ⟨none, []⟩, ⟨none, []⟩, fun _ => .ok []⟩ "hi" =
      .ok ⟨"hi", jsOrNull (some "hello there"), [], [.completionCall]⟩ :=
  (addMessage_direct_answer
    ⟨⟨some "hello there", []⟩, ⟨none, []⟩, ⟨none, []⟩, fun _ => .ok []⟩ "hi"
    rfl (by decide)).1

/-- Replacement of the tool calls requested by the follow-up and forced
retry completions, leaving everything the orchestrator reads unchanged. -/
def withSecondToolCalls (env : OrchestrationEnv) (tcs ftcs : List ToolCall) :
    OrchestrationEnv :=
  { env with followUp := ⟨env.followUp.content, tcs⟩,
             forcedSecond := ⟨env.forcedSecond.content, ftcs⟩ }

/-- Claim C7.  Tool execution is capped at one round: every successful
orchestration's provider trace is one completion call (direct answer), or
completion–one forced execution–completion, or completion–the first
round's executions–completion; and the tool calls requested by the second
(follow-up or forced retry) completion influence nothing — they are never
executed. -/
theorem addMessage_one_tool_round (env : OrchestrationEnv) (content : String) :
    (∀ out, addMessage env content = .ok out →
      out.events = [.completionCall] ∨
      out.events = [.completionCall, .toolExecution "search_knowledge_base",
        .completionCall] ∨
      out.events = .completionCall ::
        (env.first.tool_calls.map (fun tc => .toolExecution tc.function.name)) ++
        [.completionCall]) ∧
    (∀ tcs ftcs, addMessage (withSecondToolCalls env tcs ftcs) content =
      addMessage env content) := by
  constructor
  · intro out hout
    by_cases he : env.first.tool_calls.isEmpty
    · by_cases hs : shouldUseSearch content
      · simp only [addMessage, he, if_true, hs] at hout
        match hx : executeToolCall env.search (forcedToolCall content) with
        | .error e => rw [hx] at hout; cases hout
        | .ok sr =>
          rw [hx] at hout
          dsimp only at hout
          by_cases hret : jsTruthy env.forcedSecond.content
          · rw [if_pos hret] at hout
            cases hout
            right; left; rfl
          · rw [if_neg hret] at hout
            cases hout
            right; left; rfl
      · simp only [addMessage, he, if_true, hs, Bool.false_eq_true, if_false] at hout
        cases hout
        left; rfl
    · simp only [addMessage, he, Bool.false_eq_true, if_false] at hout
      cases hout
      right; right; rfl
  · intro tcs ftcs
    rfl

/-- Claim C7 witness: the trace disjunction evaluated on a concrete
direct-answer run. -/
theorem addMessage_one_tool_round_witness :
    (⟨"hi", some "yo", [], [ProviderEvent.completionCall]⟩ : AddMessageOut).events =
      [ProviderEvent.completionCall] ∨
    (⟨"hi", some "yo", [], [ProviderEvent.completionCall]⟩ : AddMessageOut).events =
      [.completionCall, .toolExecution "search_knowledge_base", .completionCall] ∨
    (⟨"hi", some "yo", [], [ProviderEvent.completionCall]⟩ : AddMessageOut).events =
      .completionCall ::
        ((⟨⟨some "yo", []⟩, ⟨none, []⟩, ⟨none, []⟩, fun _ => .ok []⟩ :
          OrchestrationEnv).first.tool_calls.map
            (fun tc => .toolExecution tc.function.name)) ++ [.completionCall] :=
  (addMessage_one_tool_round ⟨⟨some "yo", []⟩, ⟨none, []⟩, ⟨none, []⟩, fun _ => .ok []⟩
    "hi").1 ⟨"hi", some "yo", [], [.completionCall]⟩ rfl

/-- Claim C10.  The metadata strategy accepts a document only when it
yields an identifier AND at least one of a name or a description under the
known key aliases: a document whose metadata holds a `productId` alias but
no name and no description, and whose content matches neither the
`Product ID: <digits>` scan nor the structured-heading scan, contributes
zero product records. -/
theorem metadata_id_only_no_products (doc : SupabaseDocument)
    (hid : jsTruthy (jsOrStr (jsOrStr (metaLookup doc.metadata "productId")
      (metaLookup doc.metadata "product_id")) (metaLookup doc.metadata "id")) = true)
    (hname : (jsOrStr (jsOrStr (metaLookup doc.metadata "name")
      (metaLookup doc.metadata "product_name")) (metaLookup doc.metadata "title")).getD "" = "")
    (hdesc : (jsOrStr (metaLookup doc.metadata "description")
      (metaLookup doc.metadata "details")).getD "" = "")
    (hc1 : productIdMatches doc.content.data = [])
    (hc2 : structMatches doc.content.data = []) :
    extractForDoc doc = [] ∧ extractProductsFromDocuments [doc] = [] := by
  have hdoc : extractForDoc doc = [] := by
    simp only [extractForDoc, hid, if_true, hname, hdesc, hc1, hc2]
    simp
    intro _ h _
    exact absurd h (by decide)
  refine ⟨hdoc, ?_⟩
  simp [extractProductsFromDocuments, hdoc, dedupByProductId, dedupFrom]

/-- Claim C10 witness. -/
theorem metadata_id_only_no_products_witness :
    extractForDoc ⟨"d1", "hello", [("productId", "42")], 1⟩ = [] ∧
    extractProductsFromDocuments [⟨"d1", "hello", [("productId", "42")], 1⟩] = [] :=
  metadata_id_only_no_products ⟨"d1", "hello", [("productId", "42")], 1⟩
    (by decide) (by decide) (by decide) (by decide) (by decide)

/-! ## Support lemmas for symbolic extraction proofs

The two-block extraction theorem (claim C9) quantifies over arbitrary
lowercase-alphabetic names and descriptions.  The lemmas below let the
scanners be evaluated symbolically: certificates (`litFailsAll`,
`numBoldFailsAll`) discharge the concrete regions of a section by
`decide`, and the letters-lemmas discharge the symbolic regions. -/

theorem lowerLetter_bounds {c : Char} (h : lowerLetter c = true) :
    97 ≤ c.toNat ∧ c.toNat ≤ 122 := by
  unfold lowerLetter at h
  rcases Bool.and_eq_true_iff.mp h with ⟨h1, h2⟩
  exact ⟨of_decide_eq_true h1, of_decide_eq_true h2⟩

theorem lowerLetter_toLower {c : Char} (h : lowerLetter c = true) : c.toLower = c := by
  have hb := lowerLetter_bounds h
  unfold Char.toLower
  rw [if_neg]
  omega

theorem lowerLetter_isDig {c : Char} (h : lowerLetter c = true) : isDig c = false := by
  have hb := lowerLetter_bounds h
  unfold isDig
  have : ¬ (c.toNat ≤ 57) := by omega
  simp [this]

theorem lowerLetter_beq_false {c : Char} (h : lowerLetter c = true) (d : Char)
    (hd : lowerLetter d = false) : (c == d) = false := by
  rw [beq_eq_false_iff_ne]
  intro e
  subst e
  rw [h] at hd
  cases hd

theorem lowerLetter_not_jsWs {c : Char} (h : lowerLetter c = true) : jsWs c = false := by
  have hb := lowerLetter_bounds h
  unfold jsWs
  have h1 : (c == ' ') = false := lowerLetter_beq_false h ' ' (by decide)
  have h2 : (c == '\t') = false := lowerLetter_beq_false h '\t' (by decide)
  have h3 : (c == '\n') = false := lowerLetter_beq_false h '\n' (by decide)
  have h4 : (c == '\r') = false := lowerLetter_beq_false h '\r' (by decide)
  simp [h1, h2, h3, h4]
  omega

/-- Mismatch of the literal strictly inside `s` (independent of whatever
follows `s`). -/
def litMisses : List Char → List Char → Bool
  | [], _ => false
  | _ :: _, [] => false
  | p :: ps, c :: cs => !(lowerEq p c) || litMisses ps cs

/-- Certificate: at every position of `xs` the literal match fails inside
`xs`. -/
def litFailsAll (lit : List Char) : List Char → Bool
  | [] => true
  | c :: cs => litMisses lit (c :: cs) && litFailsAll lit cs

theorem litMisses_sound (lit : List Char) :
    ∀ (s : List Char), litMisses lit s = true →
      ∀ ys, stripLitCI lit (s ++ ys) = none := by
  induction lit with
  | nil => intro s h; cases s <;> cases h
  | cons p ps ih =>
    intro s h ys
    match s with
    | [] => cases h
    | c :: cs =>
      rw [show litMisses (p :: ps) (c :: cs) = (!(lowerEq p c) || litMisses ps cs) from rfl]
        at h
      rcases Bool.or_eq_true_iff.mp h with h1 | h2
      · have : lowerEq p c = false := by
          cases hx : lowerEq p c
          · rfl
          · rw [hx] at h1; cases h1
        show stripLitCI (p :: ps) (c :: (cs ++ ys)) = none
        rw [stripLitCI.eq_def]
        simp [this]
      · show stripLitCI (p :: ps) (c :: (cs ++ ys)) = none
        rw [stripLitCI.eq_def]
        by_cases hx : lowerEq p c
        · simp [hx, ih cs h2 ys]
        · simp [hx]

theorem litFailsAll_sound (lit : List Char) :
    ∀ (xs : List Char), litFailsAll lit xs = true →
      ∀ ys k, k < xs.length → stripLitCI lit (xs.drop k ++ ys) = none := by
  intro xs
  induction xs with
  | nil => intro _ _ k hk; cases hk
  | cons c cs ih =>
    intro h ys k hk
    rw [show litFailsAll lit (c :: cs) = (litMisses lit (c :: cs) && litFailsAll lit cs)
      from rfl] at h
    rcases Bool.and_eq_true_iff.mp h with ⟨h1, h2⟩
    match k with
    | 0 => exact litMisses_sound lit (c :: cs) h1 ys
    | k + 1 => exact ih h2 ys k (by simpa using hk)

/-- Aligned case-insensitive prefix match fully inside `s`. -/
def ciPrefixUpTo : List Char → List Char → Bool
  | [], _ => true
  | _ :: _, [] => false
  | p :: ps, c :: cs => lowerEq p c && ciPrefixUpTo ps cs

theorem stripLitCI_append_star_none (lit : List Char) :
    ∀ (seg ys : List Char), ciPrefixUpTo lit seg = false →
      (∀ c ∈ lit, (c.toLower == '*') = false) →
      stripLitCI lit (seg ++ '*' :: ys) = none := by
  induction lit with
  | nil => intro seg ys h _; cases seg <;> cases h
  | cons p ps ih =>
    intro seg ys h hstar
    match seg with
    | [] =>
      show stripLitCI (p :: ps) ('*' :: ys) = none
      rw [stripLitCI.eq_def]
      have : lowerEq p '*' = false := by
        have := hstar p (List.mem_cons_self p ps)
        unfold lowerEq
        rw [show '*'.toLower = '*' from rfl]
        exact this
      simp [this]
    | c :: cs =>
      show stripLitCI (p :: ps) (c :: (cs ++ '*' :: ys)) = none
      rw [stripLitCI.eq_def]
      by_cases hx : lowerEq p c
      · have hps : ciPrefixUpTo ps cs = false := by
          rw [show ciPrefixUpTo (p :: ps) (c :: cs) = (lowerEq p c && ciPrefixUpTo ps cs)
            from rfl, hx] at h
          simpa using h
        have hrec := ih cs ys hps (fun x hx2 => hstar x (List.mem_cons_of_mem p hx2))
        simp [hx, hrec]
      · simp [hx]

theorem isPrefixOf_occursIn {pat s : List Char} (h : pat.isPrefixOf s = true) :
    occursIn pat s = true := by
  match s with
  | [] =>
    match pat with
    | [] => rfl
    | _ :: _ => cases h
  | c :: cs =>
    show (pat.isPrefixOf (c :: cs) || occursIn pat cs) = true
    rw [h]
    rfl

theorem occursIn_drop {pat : List Char} :
    ∀ (s : List Char) (k : Nat), occursIn pat (s.drop k) = true → occursIn pat s = true := by
  intro s
  induction s with
  | nil => intro k h; simpa using h
  | cons c cs ih =>
    intro k h
    match k with
    | 0 => exact h
    | k + 1 =>
      have := ih k (by simpa using h)
      show (pat.isPrefixOf (c :: cs) || occursIn pat cs) = true
      rw [this]
      simp

theorem ciPrefixUpTo_isPrefixOf :
    ∀ (lit s : List Char), ciPrefixUpTo lit s = true →
      (lit.map Char.toLower).isPrefixOf (s.map Char.toLower) = true := by
  intro lit
  induction lit with
  | nil => intro s _; simp
  | cons p ps ih =>
    intro s h
    match s with
    | [] => cases h
    | c :: cs =>
      rw [show ciPrefixUpTo (p :: ps) (c :: cs) = (lowerEq p c && ciPrefixUpTo ps cs)
        from rfl] at h
      rcases Bool.and_eq_true_iff.mp h with ⟨h1, h2⟩
      simp only [List.map_cons, List.isPrefixOf_cons₂]
      rw [show (p.toLower == c.toLower) = lowerEq p c from rfl, h1, ih cs h2]
      rfl

theorem map_toLower_id {s : List Char} (h : ∀ c ∈ s, lowerLetter c = true) :
    s.map Char.toLower = s := by
  rw [List.map_congr_left (fun c hc => lowerLetter_toLower (h c hc))]
  exact List.map_id s

/-- Failure of a case-insensitive literal matcher at every position inside
a lowercase-alphabetic segment that is followed by a star (the segments of
a section are followed by `**`), provided the lowered literal does not
occur in the segment. -/
theorem stripLitCI_fail_inside_letters (lit seg : List Char)
    (hseg : ∀ c ∈ seg, lowerLetter c = true)
    (hninf : occursIn (lit.map Char.toLower) seg = false)
    (hstar : ∀ c ∈ lit, (c.toLower == '*') = false) :
    ∀ ys k, k < seg.length → stripLitCI lit (seg.drop k ++ '*' :: ys) = none := by
  intro ys k _
  apply stripLitCI_append_star_none lit (seg.drop k) ys ?_ hstar
  cases hx : ciPrefixUpTo lit (seg.drop k)
  · rfl
  · exfalso
    have h1 := ciPrefixUpTo_isPrefixOf lit (seg.drop k) hx
    rw [List.map_drop, map_toLower_id hseg] at h1
    have h2 := isPrefixOf_occursIn h1
    have h3 := occursIn_drop seg k h2
    rw [hninf] at h3
    cases h3

theorem occursIn_subset {pat : List Char} :
    ∀ (seg : List Char), occursIn pat seg = true → ∀ x ∈ pat, x ∈ seg := by
  intro seg
  induction seg with
  | nil =>
    intro h x hx
    have : pat = [] := by
      match pat with
      | [] => rfl
      | _ :: _ => cases h
    subst this
    cases hx
  | cons a as ih =>
    intro h x hx
    rcases Bool.or_eq_true_iff.mp h with h1 | h2
    · exact (List.isPrefixOf_iff_prefix.mp h1).subset hx
    · exact List.mem_cons_of_mem a (ih h2 x hx)

/-- A pattern containing a non-letter (such as the space of "product id")
cannot occur in a lowercase-alphabetic segment. -/
theorem occursIn_false_of_alien {pat seg : List Char} (c : Char) (hc : c ∈ pat)
    (hcl : lowerLetter c = false) (hseg : ∀ x ∈ seg, lowerLetter x = true) :
    occursIn pat seg = false := by
  cases hx : occursIn pat seg
  · rfl
  · exfalso
    have := hseg c (occursIn_subset seg hx c hc)
    rw [hcl] at this
    cases this

/-- After the digit run of the suffix, a non-dot character follows within
the same region. -/
def numBoldRunEnds : List Char → Bool
  | [] => false
  | d :: ds => if isDig d then numBoldRunEnds ds else !(d == '.')

/-- Position safety for the split lookahead: the head is no digit, or the
digit run ends inside the region with a non-dot follower. -/
def numBoldSafeAt : List Char → Bool
  | [] => true
  | c :: cs => if isDig c then numBoldRunEnds cs else true

/-- Certificate: the split lookahead fails at every position of the
region, whatever follows it. -/
def numBoldFailsAll : List Char → Bool
  | [] => true
  | c :: cs => numBoldSafeAt (c :: cs) && numBoldFailsAll cs

theorem drop_takeWhile_len (p : α → Bool) (s : List α) :
    s.drop (s.takeWhile p).length = s.dropWhile p := by
  rw [show s.drop (s.takeWhile p).length =
    ((s.takeWhile p ++ s.dropWhile p).drop (s.takeWhile p).length) by
      rw [List.takeWhile_append_dropWhile]]
  exact List.drop_left _ _

theorem numBoldAt_false_head {c : Char} (cs : List Char) (h : isDig c = false) :
    numBoldAt (c :: cs) = false := by
  unfold numBoldAt
  rw [List.takeWhile_cons_of_neg (by simp [h])]
  rfl

theorem numBoldRunEnds_dropWhile (cs : List Char) (h : numBoldRunEnds cs = true) :
    ∀ ys, ∃ d tail, (cs ++ ys).dropWhile isDig = d :: tail ∧ (d == '.') = false := by
  induction cs with
  | nil => cases h
  | cons d ds ih =>
    intro ys
    by_cases hd : isDig d = true
    · rw [show numBoldRunEnds (d :: ds) = (if isDig d then numBoldRunEnds ds else !(d == '.'))
        from rfl, if_pos hd] at h
      rw [List.cons_append, List.dropWhile_cons_of_pos hd]
      exact ih h ys
    · rw [show numBoldRunEnds (d :: ds) = (if isDig d then numBoldRunEnds ds else !(d == '.'))
        from rfl, if_neg hd] at h
      refine ⟨d, ds ++ ys, ?_, by simpa using h⟩
      rw [List.cons_append, List.dropWhile_cons_of_neg (by simpa using hd)]

theorem numBoldSafeAt_sound (c : Char) (cs : List Char)
    (h : numBoldSafeAt (c :: cs) = true) :
    ∀ ys, numBoldAt (c :: cs ++ ys) = false := by
  intro ys
  by_cases hc : isDig c = true
  · rw [show numBoldSafeAt (c :: cs) = (if isDig c then numBoldRunEnds cs else true)
      from rfl, if_pos hc] at h
    rcases numBoldRunEnds_dropWhile cs h ys with ⟨d, tail, hdw, hdot⟩
    unfold numBoldAt
    rw [show (c :: cs ++ ys : List Char) = c :: (cs ++ ys) from rfl]
    rw [List.takeWhile_cons_of_pos hc]
    dsimp only
    simp only [List.isEmpty_cons, Bool.false_eq_true, if_false, List.length_cons,
      List.drop_succ_cons]
    rw [drop_takeWhile_len, hdw]
    split
    · rename_i heq
      rw [List.cons.injEq] at heq
      rw [heq.1] at hdot
      simp at hdot
    · rfl
  · have : isDig c = false := by simpa using hc
    rw [show (c :: cs ++ ys : List Char) = c :: (cs ++ ys) from rfl]
    exact numBoldAt_false_head _ this

theorem numBoldFailsAll_sound :
    ∀ (xs : List Char), numBoldFailsAll xs = true →
      ∀ ys k, k < xs.length → numBoldAt (xs.drop k ++ ys) = false := by
  intro xs
  induction xs with
  | nil => intro _ _ k hk; cases hk
  | cons c cs ih =>
    intro h ys k hk
    rw [show numBoldFailsAll (c :: cs) = (numBoldSafeAt (c :: cs) && numBoldFailsAll cs)
      from rfl] at h
    rcases Bool.and_eq_true_iff.mp h with ⟨h1, h2⟩
    match k with
    | 0 => exact numBoldSafeAt_sound c cs h1 ys
    | k + 1 => exact ih h2 ys k (by simpa using hk)

theorem numBoldFailsAll_letters {seg : List Char} (h : ∀ c ∈ seg, lowerLetter c = true) :
    numBoldFailsAll seg = true := by
  induction seg with
  | nil => rfl
  | cons c cs ih =>
    rw [show numBoldFailsAll (c :: cs) = (numBoldSafeAt (c :: cs) && numBoldFailsAll cs)
      from rfl]
    rw [show numBoldSafeAt (c :: cs) = (if isDig c then numBoldRunEnds cs else true) from rfl]
    rw [if_neg (by rw [lowerLetter_isDig (h c (List.mem_cons_self c cs))]; simp)]
    rw [ih (fun x hx => h x (List.mem_cons_of_mem c hx))]
    rfl

theorem scanFirst_cons_some {β : Type} (m : List Char → Option β) (c : Char) (cs : List Char)
    (b : β) (h : m (c :: cs) = some b) : scanFirst m (c :: cs) = some b := by
  rw [show scanFirst m (c :: cs) =
    (match m (c :: cs) with
     | some r => some r
     | none => scanFirst m cs) from rfl, h]

theorem scanFirst_cons_none {β : Type} (m : List Char → Option β) (c : Char) (cs : List Char)
    (h : m (c :: cs) = none) : scanFirst m (c :: cs) = scanFirst m cs := by
  rw [show scanFirst m (c :: cs) =
    (match m (c :: cs) with
     | some r => some r
     | none => scanFirst m cs) from rfl, h]

theorem scanFirst_append_none {β : Type} (m : List Char → Option β) :
    ∀ (xs ys : List Char), (∀ k, k < xs.length → m (xs.drop k ++ ys) = none) →
      scanFirst m (xs ++ ys) = scanFirst m ys := by
  intro xs
  induction xs with
  | nil => intro ys _; rfl
  | cons c cs ih =>
    intro ys h
    show scanFirst m (c :: (cs ++ ys)) = scanFirst m ys
    rw [scanFirst_cons_none m c (cs ++ ys) (by simpa using h 0 (by simp)), ih ys
      (fun k hk => by simpa using h (k + 1) (by simpa using hk))]

theorem productIdTagAt_none {s : List Char} (h : stripLitCI "Product ID".data s = none) :
    productIdTagAt s = none := by
  simp [productIdTagAt, h]

theorem descTagAt_none {s : List Char} (h : stripLitCI "Description".data s = none) :
    descTagAt s = none := by
  simp [descTagAt, h]

theorem splitGo_skip (xs : List Char) :
    ∀ (cur ys : List Char), (∀ k, k < xs.length → numBoldAt (xs.drop k ++ ys) = false) →
      splitSectionsGo cur (xs ++ ys) = splitSectionsGo (xs.reverse ++ cur) ys := by
  induction xs with
  | nil => intro cur ys _; rfl
  | cons c cs ih =>
    intro cur ys h
    rw [List.cons_append]
    rw [show splitSectionsGo cur (c :: (cs ++ ys)) =
      (if numBoldAt (c :: (cs ++ ys)) && !cur.isEmpty then
        cur.reverse :: splitSectionsGo [c] (cs ++ ys)
      else splitSectionsGo (c :: cur) (cs ++ ys)) from rfl]
    rw [show numBoldAt (c :: (cs ++ ys)) = false from h 0 (by simp)]
    rw [show (false && !cur.isEmpty) = false from rfl]
    rw [if_neg (by simp)]
    rw [ih (c :: cur) ys (fun k hk => h (k + 1) (by simpa using hk))]
    rw [List.reverse_cons, List.append_assoc]
    rfl

theorem splitGo_split (cur : List Char) (c : Char) (cs : List Char)
    (h1 : numBoldAt (c :: cs) = true) (h2 : cur.isEmpty = false) :
    splitSectionsGo cur (c :: cs) = cur.reverse :: splitSectionsGo [c] cs := by
  rw [show splitSectionsGo cur (c :: cs) =
    (if numBoldAt (c :: cs) && !cur.isEmpty then
      cur.reverse :: splitSectionsGo [c] cs
    else splitSectionsGo (c :: cur) cs) from rfl]
  rw [h1, h2]
  rfl

theorem splitGo_start (c : Char) (cs : List Char) :
    splitSectionsGo [] (c :: cs) = splitSectionsGo [c] cs := by
  rw [show splitSectionsGo [] (c :: cs) =
    (if numBoldAt (c :: cs) && !(List.isEmpty ([] : List Char)) then
      List.reverse ([] : List Char) :: splitSectionsGo [c] cs
    else splitSectionsGo [c] cs) from rfl]
  rw [show (numBoldAt (c :: cs) && !(List.isEmpty ([] : List Char))) = false by simp]
  rfl

theorem dropWhile_all_neg (p : α → Bool) (s : List α) (h : ∀ c ∈ s, p c = false) :
    s.dropWhile p = s := by
  match s with
  | [] => rfl
  | c :: cs =>
    rw [List.dropWhile_cons_of_neg]
    rw [h c (List.mem_cons_self c cs)]
    simp

theorem jsTrimList_id (s : List Char) (h : ∀ c ∈ s, jsWs c = false) :
    jsTrimList s = s := by
  unfold jsTrimList
  rw [dropWhile_all_neg jsWs s h]
  rw [dropWhile_all_neg jsWs s.reverse (fun c hc => h c (List.mem_reverse.mp hc))]
  exact List.reverse_reverse s

theorem mem_dropWhile_of_neg (p : α → Bool) :
    ∀ (s : List α) (x : α), x ∈ s → p x = false → x ∈ s.dropWhile p := by
  intro s
  induction s with
  | nil => intro x hx; cases hx
  | cons c cs ih =>
    intro x hx hpx
    by_cases hc : p c = true
    · rw [List.dropWhile_cons_of_pos hc]
      rcases List.mem_cons.mp hx with h | h
      · subst h; rw [hpx] at hc; cases hc
      · exact ih x h hpx
    · rw [List.dropWhile_cons_of_neg (by simpa using hc)]
      exact hx

theorem jsTrimList_ne_nil (s : List Char) (x : Char) (hx : x ∈ s) (hpx : jsWs x = false) :
    (jsTrimList s).isEmpty = false := by
  unfold jsTrimList
  have h1 : x ∈ s.dropWhile jsWs := mem_dropWhile_of_neg jsWs s x hx hpx
  have h2 : x ∈ (s.dropWhile jsWs).reverse.dropWhile jsWs :=
    mem_dropWhile_of_neg jsWs _ x (List.mem_reverse.mpr h1) hpx
  have h3 : x ∈ ((s.dropWhile jsWs).reverse.dropWhile jsWs).reverse :=
    List.mem_reverse.mpr h2
  rcases List.ne_nil_of_mem h3 with _
  cases hE : ((s.dropWhile jsWs).reverse.dropWhile jsWs).reverse with
  | nil => exact absurd (hE ▸ h3) (by simp)
  | cons a as => rfl

theorem replaceNlRuns_id :
    ∀ (fuel : Nat) (s : List Char), s.length ≤ fuel → (∀ c ∈ s, jsWs c = false) →
      replaceNlRuns fuel s = s := by
  intro fuel
  induction fuel with
  | zero =>
    intro s hs _
    match s, hs with
    | [], _ => rfl
  | succ fuel ih =>
    intro s hs h
    match s with
    | [] => rfl
    | c :: cs =>
      rw [show replaceNlRuns (fuel + 1) (c :: cs) =
        (if jsWs c then
          (if ((c :: cs).takeWhile jsWs).contains '\n' then [' ']
           else (c :: cs).takeWhile jsWs) ++
            replaceNlRuns fuel ((c :: cs).drop ((c :: cs).takeWhile jsWs).length)
        else c :: replaceNlRuns fuel cs) from rfl]
      rw [if_neg (by rw [h c (List.mem_cons_self c cs)]; simp)]
      rw [ih cs (by simpa using hs) (fun x hx => h x (List.mem_cons_of_mem c hx))]

theorem collapseWsPlus_id :
    ∀ (fuel : Nat) (s : List Char), s.length ≤ fuel → (∀ c ∈ s, jsWs c = false) →
      collapseWsPlus fuel s = s := by
  intro fuel
  induction fuel with
  | zero =>
    intro s hs _
    match s, hs with
    | [], _ => rfl
  | succ fuel ih =>
    intro s hs h
    match s with
    | [] => rfl
    | c :: cs =>
      rw [show collapseWsPlus (fuel + 1) (c :: cs) =
        (if jsWs c then ' ' :: collapseWsPlus fuel ((c :: cs).dropWhile jsWs)
         else c :: collapseWsPlus fuel cs) from rfl]
      rw [if_neg (by rw [h c (List.mem_cons_self c cs)]; simp)]
      rw [ih cs (by simpa using hs) (fun x hx => h x (List.mem_cons_of_mem c hx))]

theorem cleanupDescription_id (s : List Char) (h : ∀ c ∈ s, jsWs c = false) :
    cleanupDescription s = s := by
  unfold cleanupDescription
  rw [replaceNlRuns_id s.length s le_rfl h]
  show jsTrimList (collapseWsPlus s.length s) = s
  rw [collapseWsPlus_id s.length s le_rfl h]
  exact jsTrimList_id s h

theorem isDig_bounds {c : Char} (h : isDig c = true) : 48 ≤ c.toNat ∧ c.toNat ≤ 57 := by
  unfold isDig at h
  rcases Bool.and_eq_true_iff.mp h with ⟨h1, h2⟩
  exact ⟨of_decide_eq_true h1, of_decide_eq_true h2⟩

theorem isDig_toLower {c : Char} (h : isDig c = true) : c.toLower = c := by
  have hb := isDig_bounds h
  unfold Char.toLower
  rw [if_neg]
  omega

theorem isDig_not_jsWs {c : Char} (h : isDig c = true) : jsWs c = false := by
  have hb := isDig_bounds h
  unfold jsWs
  have h1 : (c == ' ') = false := by
    rw [beq_eq_false_iff_ne]; intro e; subst e; exact absurd hb (by decide)
  have h2 : (c == '\t') = false := by
    rw [beq_eq_false_iff_ne]; intro e; subst e; exact absurd hb (by decide)
  have h3 : (c == '\n') = false := by
    rw [beq_eq_false_iff_ne]; intro e; subst e; exact absurd hb (by decide)
  have h4 : (c == '\r') = false := by
    rw [beq_eq_false_iff_ne]; intro e; subst e; exact absurd hb (by decide)
  simp [h1, h2, h3, h4]
  omega

theorem isDig_beq_false {c : Char} (h : isDig c = true) (d : Char) (hd : isDig d = false) :
    (c == d) = false := by
  rw [beq_eq_false_iff_ne]
  intro e
  subst e
  rw [h] at hd
  cases hd

theorem lowerEq_false_of_digit (p c : Char) (hc : isDig c = true)
    (hp : 65 ≤ p.toLower.toNat) : lowerEq p c = false := by
  unfold lowerEq
  rw [isDig_toLower hc, beq_eq_false_iff_ne]
  intro e
  have := congrArg Char.toNat e
  have hb := isDig_bounds hc
  omega

theorem stripLitCI_head_fail (p : Char) (ps : List Char) (c : Char) (cs : List Char)
    (h : lowerEq p c = false) : stripLitCI (p :: ps) (c :: cs) = none := by
  rw [stripLitCI.eq_def]
  simp [h]

theorem isEmpty_false_of_ne_nil {l : List α} (h : l ≠ []) : l.isEmpty = false := by
  match l, h with
  | a :: as, _ => rfl

/-! ## The two-block scenario text of claim C9 -/

/-- "1. **" and "2. **" headers (the numbered bold-emphasis anchors). -/
def blkHead (numCh : Char) : List Char := [numCh, '.', ' ', '*', '*']

/-- "**" closing the name, then the identifier line "Product ID: ", as
characters. -/
def blkMidA : List Char :=
  ['*', '*', '\n', 'P', 'r', 'o', 'd', 'u', 'c', 't', ' ', 'I', 'D', ':', ' ']

/-- Newline and the description label "Description: ", as characters. -/
def blkMidB : List Char :=
  ['\n', 'D', 'e', 's', 'c', 'r', 'i', 'p', 't', 'i', 'o', 'n', ':', ' ']

/-- One product block: `N. **name**\nProduct ID: D\nDescription: desc`. -/
def productBlock (numCh dCh : Char) (n d tailC : List Char) : List Char :=
  blkHead numCh ++ (n ++ (blkMidA ++ (dCh :: (blkMidB ++ (d ++ tailC)))))

/-- The scenario text: two product blocks with identifiers 7 and 9,
separated by a blank line. -/
def twoBlockChars (n1 d1 n2 d2 : List Char) : List Char :=
  productBlock '1' '7' n1 d1 (['\n', '\n'] ++ productBlock '2' '9' n2 d2 [])

/-- Evaluation of the bold-header name matcher at the start of a block. -/
theorem nameMatchAt_block (numCh : Char) (hnum : isDig numCh = true) (n Y Z : List Char)
    (hnstar : ∀ c ∈ n, (!(c == '*')) = true) (hne : n ≠ [])
    (hY : Y = '*' :: '*' :: Z) :
    nameMatchAt (numCh :: '.' :: ' ' :: '*' :: '*' :: (n ++ Y)) = some n := by
  have t1 : (numCh :: '.' :: ' ' :: '*' :: '*' :: (n ++ Y)).takeWhile isDig = [numCh] := by
    rw [List.takeWhile_cons_of_pos hnum, List.takeWhile_cons_of_neg (by decide)]
  have t3 : (' ' :: '*' :: '*' :: (n ++ Y)).dropWhile jsWs = '*' :: '*' :: (n ++ Y) := by
    rw [List.dropWhile_cons_of_pos (by decide), List.dropWhile_cons_of_neg (by decide)]
  have t4 : stripLit ['*', '*'] ('*' :: '*' :: (n ++ Y)) = some (n ++ Y) := rfl
  have t5 : (n ++ Y).takeWhile (fun c => !(c == '*')) = n := by
    rw [List.takeWhile_append_of_pos hnstar, hY,
      List.takeWhile_cons_of_neg (by simp), List.append_nil]
  have t6 : (n ++ Y).drop n.length = Y := List.drop_left n Y
  have t7 : stripLit ['*', '*'] Y = some Z := by rw [hY]; rfl
  simp only [nameMatchAt, t1, List.isEmpty_cons, Bool.false_eq_true, if_false,
    List.length_cons, List.length_nil, List.drop_succ_cons, List.drop_zero, t3, t4, t5,
    t6, t7, isEmpty_false_of_ne_nil hne]

/-- Evaluation of the identifier matcher at the `Product ID: ` marker. -/
theorem productIdTagAt_marker (dCh : Char) (hdig : isDig dCh = true) (W : List Char) :
    productIdTagAt ('P' :: 'r' :: 'o' :: 'd' :: 'u' :: 'c' :: 't' :: ' ' :: 'I' :: 'D' ::
      ':' :: ' ' :: dCh :: '\n' :: W) = some [dCh] := by
  have t1 : stripLitCI "Product ID".data
      ('P' :: 'r' :: 'o' :: 'd' :: 'u' :: 'c' :: 't' :: ' ' :: 'I' :: 'D' ::
        ':' :: ' ' :: dCh :: '\n' :: W) = some (':' :: ' ' :: dCh :: '\n' :: W) := rfl
  have t0 : starOpt (starOpt (':' :: ' ' :: dCh :: '\n' :: W)) =
      ':' :: ' ' :: dCh :: '\n' :: W := rfl
  have t2 : (' ' :: dCh :: '\n' :: W).dropWhile jsWs = dCh :: '\n' :: W := by
    rw [List.dropWhile_cons_of_pos (by decide),
        List.dropWhile_cons_of_neg (by simp [isDig_not_jsWs hdig])]
  have t3 : (dCh :: '\n' :: W).takeWhile isDig = [dCh] := by
    rw [List.takeWhile_cons_of_pos hdig, List.takeWhile_cons_of_neg (by decide)]
  simp only [productIdTagAt, t1, t0, t2, t3, List.isEmpty_cons, Bool.false_eq_true,
    if_false]

/-- Evaluation of the description matcher at the `Description: ` label,
for a lowercase-alphabetic description followed by a blank line or the end
of the text. -/
theorem descTagAt_marker (d tailC : List Char)
    (hd : ∀ c ∈ d, lowerLetter c = true) (hde : d ≠ [])
    (htail : tailC = ['\n', '\n'] ∨ tailC = []) :
    descTagAt ('D' :: 'e' :: 's' :: 'c' :: 'r' :: 'i' :: 'p' :: 't' :: 'i' :: 'o' :: 'n' ::
      ':' :: ' ' :: (d ++ tailC)) = some d := by
  have t1 : stripLitCI "Description".data
      ('D' :: 'e' :: 's' :: 'c' :: 'r' :: 'i' :: 'p' :: 't' :: 'i' :: 'o' :: 'n' ::
        ':' :: ' ' :: (d ++ tailC)) = some (':' :: ' ' :: (d ++ tailC)) := rfl
  have t0 : starOpt (starOpt (':' :: ' ' :: (d ++ tailC))) = ':' :: ' ' :: (d ++ tailC) :=
    rfl
  have t2 : (' ' :: (d ++ tailC)).dropWhile jsWs = d ++ tailC := by
    rw [List.dropWhile_cons_of_pos (by decide)]
    match d, hde with
    | c :: d', _ =>
      rw [List.cons_append]
      rw [List.dropWhile_cons_of_neg
        (by simp [lowerLetter_not_jsWs (hd c (List.mem_cons_self c d'))])]
  have t3 : (d ++ tailC).takeWhile (fun c => !(c == '-') && !(c == '\n')) = d := by
    rw [List.takeWhile_append_of_pos (fun c hc => by
      rw [lowerLetter_beq_false (hd c hc) '-' (by decide),
          lowerLetter_beq_false (hd c hc) '\n' (by decide)]
      rfl)]
    rcases htail with h | h
    · rw [h, List.takeWhile_cons_of_neg (by decide), List.append_nil]
    · rw [h, List.takeWhile_nil, List.append_nil]
  have t4 : (d ++ tailC).drop d.length = tailC := List.drop_left d tailC
  have t5 : descCont tailC.length tailC = [] := by
    rcases htail with h | h <;> rw [h] <;> rfl
  simp only [descTagAt, t1, t0, t2, t3, t4, t5, isEmpty_false_of_ne_nil hde,
    Bool.false_eq_true, if_false, List.append_nil]

/-- A failed case-insensitive match of `Product ID` at the head makes the
identifier matcher fail. -/
theorem productIdTagAt_none_of_strip (s : List Char)
    (h : stripLitCI "Product ID".data s = none) : productIdTagAt s = none := by
  simp only [productIdTagAt, h]

/-- A failed case-insensitive match of `Description` at the head makes the
description matcher fail. -/
theorem descTagAt_none_of_strip (s : List Char)
    (h : stripLitCI "Description".data s = none) : descTagAt s = none := by
  simp only [descTagAt, h]

/-- The identifier scan steps over a position carrying a mismatch
certificate. -/
theorem productIdTagAt_skip (c : Char) (cs : List Char)
    (h : litMisses "Product ID".data (c :: cs) = true) :
    scanFirst productIdTagAt (c :: cs) = scanFirst productIdTagAt cs := by
  apply scanFirst_cons_none
  apply productIdTagAt_none_of_strip
  have h2 := litMisses_sound "Product ID".data (c :: cs) h []
  rwa [List.append_nil] at h2

/-- The description scan steps over a position carrying a mismatch
certificate. -/
theorem descTagAt_skip (c : Char) (cs : List Char)
    (h : litMisses "Description".data (c :: cs) = true) :
    scanFirst descTagAt (c :: cs) = scanFirst descTagAt cs := by
  apply scanFirst_cons_none
  apply descTagAt_none_of_strip
  have h2 := litMisses_sound "Description".data (c :: cs) h []
  rwa [List.append_nil] at h2

/-- The identifier scan steps over a digit. -/
theorem productIdTagAt_digit_skip (c : Char) (cs : List Char) (h : isDig c = true) :
    scanFirst productIdTagAt (c :: cs) = scanFirst productIdTagAt cs := by
  apply scanFirst_cons_none
  apply productIdTagAt_none_of_strip
  exact stripLitCI_head_fail 'P' "roduct ID".data c cs
    (lowerEq_false_of_digit 'P' c h (by decide))

/-- The description scan steps over a digit. -/
theorem descTagAt_digit_skip (c : Char) (cs : List Char) (h : isDig c = true) :
    scanFirst descTagAt (c :: cs) = scanFirst descTagAt cs := by
  apply scanFirst_cons_none
  apply descTagAt_none_of_strip
  exact stripLitCI_head_fail 'D' "escription".data c cs
    (lowerEq_false_of_digit 'D' c h (by decide))

/-- The name scan over one product block finds the header name. -/
theorem scanName_block (numCh dCh : Char) (hnum : isDig numCh = true)
    (n d tailC : List Char) (hn : ∀ c ∈ n, lowerLetter c = true) (hne : n ≠ []) :
    scanFirst nameMatchAt (productBlock numCh dCh n d tailC) = some n := by
  have hm : nameMatchAt (numCh :: '.' :: ' ' :: '*' :: '*' ::
      (n ++ (blkMidA ++ (dCh :: (blkMidB ++ (d ++ tailC)))))) = some n :=
    nameMatchAt_block numCh hnum n (blkMidA ++ (dCh :: (blkMidB ++ (d ++ tailC))))
      ('\n' :: 'P' :: 'r' :: 'o' :: 'd' :: 'u' :: 'c' :: 't' :: ' ' :: 'I' :: 'D' :: ':' ::
        ' ' :: dCh :: (blkMidB ++ (d ++ tailC)))
      (fun c hc => by rw [lowerLetter_beq_false (hn c hc) '*' (by decide)]; rfl)
      hne rfl
  exact scanFirst_cons_some nameMatchAt numCh _ n hm

/-- The identifier scan over one product block finds exactly the marker
digit. -/
theorem scanPid_block (numCh dCh : Char) (hnum : isDig numCh = true)
    (hdig : isDig dCh = true) (n d tailC : List Char)
    (hn : ∀ c ∈ n, lowerLetter c = true) :
    scanFirst productIdTagAt (productBlock numCh dCh n d tailC) = some [dCh] := by
  show scanFirst productIdTagAt (numCh :: '.' :: ' ' :: '*' :: '*' ::
    (n ++ ('*' :: '*' :: '\n' :: 'P' :: 'r' :: 'o' :: 'd' :: 'u' :: 'c' :: 't' :: ' ' ::
      'I' :: 'D' :: ':' :: ' ' :: dCh :: '\n' ::
      ('D' :: 'e' :: 's' :: 'c' :: 'r' :: 'i' :: 'p' :: 't' :: 'i' :: 'o' :: 'n' :: ':' ::
        ' ' :: (d ++ tailC))))) = some [dCh]
  rw [productIdTagAt_digit_skip numCh _ hnum, productIdTagAt_skip '.' _ rfl,
    productIdTagAt_skip ' ' _ rfl, productIdTagAt_skip '*' _ rfl,
    productIdTagAt_skip '*' _ rfl]
  rw [scanFirst_append_none productIdTagAt n
    ('*' :: '*' :: '\n' :: 'P' :: 'r' :: 'o' :: 'd' :: 'u' :: 'c' :: 't' :: ' ' ::
      'I' :: 'D' :: ':' :: ' ' :: dCh :: '\n' ::
      ('D' :: 'e' :: 's' :: 'c' :: 'r' :: 'i' :: 'p' :: 't' :: 'i' :: 'o' :: 'n' :: ':' ::
        ' ' :: (d ++ tailC)))
    (fun k hk => productIdTagAt_none_of_strip _
      (stripLitCI_fail_inside_letters "Product ID".data n hn
        (occursIn_false_of_alien ' ' (by decide) (by decide) hn) (by decide)
        ('*' :: '\n' :: 'P' :: 'r' :: 'o' :: 'd' :: 'u' :: 'c' :: 't' :: ' ' ::
          'I' :: 'D' :: ':' :: ' ' :: dCh :: '\n' ::
          ('D' :: 'e' :: 's' :: 'c' :: 'r' :: 'i' :: 'p' :: 't' :: 'i' :: 'o' :: 'n' :: ':' ::
            ' ' :: (d ++ tailC))) k hk))]
  rw [productIdTagAt_skip '*' _ rfl, productIdTagAt_skip '*' _ rfl,
    productIdTagAt_skip '\n' _ rfl]
  exact scanFirst_cons_some productIdTagAt 'P' _ [dCh]
    (productIdTagAt_marker dCh hdig
      ('D' :: 'e' :: 's' :: 'c' :: 'r' :: 'i' :: 'p' :: 't' :: 'i' :: 'o' :: 'n' :: ':' ::
        ' ' :: (d ++ tailC)))

/-- The description scan over one product block finds exactly the labelled
description. -/
theorem scanDesc_block (numCh dCh : Char) (hnum : isDig numCh = true)
    (hdig : isDig dCh = true) (n d tailC : List Char)
    (hn : ∀ c ∈ n, lowerLetter c = true)
    (hnd : occursIn "description".data n = false)
    (hd : ∀ c ∈ d, lowerLetter c = true) (hde : d ≠ [])
    (htail : tailC = ['\n', '\n'] ∨ tailC = []) :
    scanFirst descTagAt (productBlock numCh dCh n d tailC) = some d := by
  have hnd2 : occursIn ("Description".data.map Char.toLower) n = false := hnd
  show scanFirst descTagAt (numCh :: '.' :: ' ' :: '*' :: '*' ::
    (n ++ ('*' :: '*' :: '\n' :: 'P' :: 'r' :: 'o' :: 'd' :: 'u' :: 'c' :: 't' :: ' ' ::
      'I' :: 'D' :: ':' :: ' ' :: dCh :: '\n' ::
      ('D' :: 'e' :: 's' :: 'c' :: 'r' :: 'i' :: 'p' :: 't' :: 'i' :: 'o' :: 'n' :: ':' ::
        ' ' :: (d ++ tailC))))) = some d
  rw [descTagAt_digit_skip numCh _ hnum, descTagAt_skip '.' _ rfl,
    descTagAt_skip ' ' _ rfl, descTagAt_skip '*' _ rfl, descTagAt_skip '*' _ rfl]
  rw [scanFirst_append_none descTagAt n
    ('*' :: '*' :: '\n' :: 'P' :: 'r' :: 'o' :: 'd' :: 'u' :: 'c' :: 't' :: ' ' ::
      'I' :: 'D' :: ':' :: ' ' :: dCh :: '\n' ::
      ('D' :: 'e' :: 's' :: 'c' :: 'r' :: 'i' :: 'p' :: 't' :: 'i' :: 'o' :: 'n' :: ':' ::
        ' ' :: (d ++ tailC)))
    (fun k hk => descTagAt_none_of_strip _
      (stripLitCI_fail_inside_letters "Description".data n hn hnd2 (by decide)
        ('*' :: '\n' :: 'P' :: 'r' :: 'o' :: 'd' :: 'u' :: 'c' :: 't' :: ' ' ::
          'I' :: 'D' :: ':' :: ' ' :: dCh :: '\n' ::
          ('D' :: 'e' :: 's' :: 'c' :: 'r' :: 'i' :: 'p' :: 't' :: 'i' :: 'o' :: 'n' :: ':' ::
            ' ' :: (d ++ tailC))) k hk))]
  rw [descTagAt_skip '*' _ rfl, descTagAt_skip '*' _ rfl, descTagAt_skip '\n' _ rfl]
  show scanFirst descTagAt
    (['P', 'r', 'o', 'd', 'u', 'c', 't', ' ', 'I', 'D', ':', ' '] ++
      (dCh :: '\n' ::
        ('D' :: 'e' :: 's' :: 'c' :: 'r' :: 'i' :: 'p' :: 't' :: 'i' :: 'o' :: 'n' :: ':' ::
          ' ' :: (d ++ tailC)))) = some d
  rw [scanFirst_append_none descTagAt
    ['P', 'r', 'o', 'd', 'u', 'c', 't', ' ', 'I', 'D', ':', ' ']
    (dCh :: '\n' ::
      ('D' :: 'e' :: 's' :: 'c' :: 'r' :: 'i' :: 'p' :: 't' :: 'i' :: 'o' :: 'n' :: ':' ::
        ' ' :: (d ++ tailC)))
    (fun k hk => descTagAt_none_of_strip _
      (litFailsAll_sound "Description".data
        ['P', 'r', 'o', 'd', 'u', 'c', 't', ' ', 'I', 'D', ':', ' '] (by decide)
        (dCh :: '\n' ::
          ('D' :: 'e' :: 's' :: 'c' :: 'r' :: 'i' :: 'p' :: 't' :: 'i' :: 'o' :: 'n' :: ':' ::
            ' ' :: (d ++ tailC))) k hk))]
  rw [descTagAt_digit_skip dCh _ hdig, descTagAt_skip '\n' _ rfl]
  exact scanFirst_cons_some descTagAt 'D' _ d (descTagAt_marker d tailC hd hde htail)

/-- Processing one product block yields the expected record: header name,
marker digit and labelled description, with no placeholder or sentinel
default taken. -/
theorem processSection_block (numCh dCh : Char) (hnum : isDig numCh = true)
    (hdig : isDig dCh = true) (n d tailC : List Char)
    (hn : ∀ c ∈ n, lowerLetter c = true) (hne : n ≠ [])
    (hnd : occursIn "description".data n = false)
    (hd : ∀ c ∈ d, lowerLetter c = true) (hde : d ≠ [])
    (htail : tailC = ['\n', '\n'] ∨ tailC = []) :
    processSection (productBlock numCh dCh n d tailC) =
      some { name := String.mk n, productId := String.mk [dCh],
             description := String.mk d } := by
  have hmem : numCh ∈ productBlock numCh dCh n d tailC := List.mem_cons_self numCh _
  have htrim : (jsTrimList (productBlock numCh dCh n d tailC)).isEmpty = false :=
    jsTrimList_ne_nil _ numCh hmem (isDig_not_jsWs hnum)
  have hname := scanName_block numCh dCh hnum n d tailC hn hne
  have hpid := scanPid_block numCh dCh hnum hdig n d tailC hn
  have hdesc := scanDesc_block numCh dCh hnum hdig n d tailC hn hnd hd hde htail
  have hnt : jsTrimList n = n := jsTrimList_id n (fun c hc => lowerLetter_not_jsWs (hn c hc))
  have hdt : jsTrimList d = d := jsTrimList_id d (fun c hc => lowerLetter_not_jsWs (hd c hc))
  have hcd : cleanupDescription d = d :=
    cleanupDescription_id d (fun c hc => lowerLetter_not_jsWs (hd c hc))
  simp only [processSection, htrim, Bool.false_eq_true, if_false, hname, hpid, hdesc,
    hnt, hdt, hcd, isEmpty_false_of_ne_nil hne, isEmpty_false_of_ne_nil hde]

/-- The split lookahead succeeds at a numbered bold header. -/
theorem numBoldAt_header (c : Char) (hc : isDig c = true) (X : List Char) :
    numBoldAt (c :: '.' :: ' ' :: '*' :: '*' :: X) = true := by
  unfold numBoldAt
  rw [List.takeWhile_cons_of_pos hc, List.takeWhile_cons_of_neg (by decide)]
  simp only [List.isEmpty_cons, Bool.false_eq_true, if_false, List.length_cons,
    List.length_nil, List.drop_succ_cons, List.drop_zero]
  rw [List.dropWhile_cons_of_pos (by decide), List.dropWhile_cons_of_neg (by decide)]
  simp [List.isPrefixOf]

/-- The section splitter cuts the two-block text exactly at the second
numbered bold header. -/
theorem twoBlock_split (n1 d1 n2 d2 : List Char)
    (hn1 : ∀ c ∈ n1, lowerLetter c = true) (hd1 : ∀ c ∈ d1, lowerLetter c = true)
    (hn2 : ∀ c ∈ n2, lowerLetter c = true) (hd2 : ∀ c ∈ d2, lowerLetter c = true) :
    splitSections (twoBlockChars n1 d1 n2 d2) =
      [productBlock '1' '7' n1 d1 ['\n', '\n'], productBlock '2' '9' n2 d2 []] := by
  have e1 : splitSectionsGo [] (twoBlockChars n1 d1 n2 d2) =
      splitSectionsGo ['1'] (['.', ' ', '*', '*'] ++
        (n1 ++ (blkMidA ++ ('7' :: (blkMidB ++
          (d1 ++ (['\n', '\n'] ++ productBlock '2' '9' n2 d2 []))))))) :=
    splitGo_start '1' _
  have e2 : splitSectionsGo ['1'] (['.', ' ', '*', '*'] ++
      (n1 ++ (blkMidA ++ ('7' :: (blkMidB ++
        (d1 ++ (['\n', '\n'] ++ productBlock '2' '9' n2 d2 []))))))) =
      splitSectionsGo (['.', ' ', '*', '*'].reverse ++ ['1'])
        (n1 ++ (blkMidA ++ ('7' :: (blkMidB ++
          (d1 ++ (['\n', '\n'] ++ productBlock '2' '9' n2 d2 [])))))) :=
    splitGo_skip ['.', ' ', '*', '*'] ['1'] _
      (fun k hk => numBoldFailsAll_sound _ (by decide) _ k hk)
  have e3 : splitSectionsGo (['.', ' ', '*', '*'].reverse ++ ['1'])
      (n1 ++ (blkMidA ++ ('7' :: (blkMidB ++
        (d1 ++ (['\n', '\n'] ++ productBlock '2' '9' n2 d2 [])))))) =
      splitSectionsGo (n1.reverse ++ (['.', ' ', '*', '*'].reverse ++ ['1']))
        (blkMidA ++ ('7' :: (blkMidB ++
          (d1 ++ (['\n', '\n'] ++ productBlock '2' '9' n2 d2 []))))) :=
    splitGo_skip n1 _ _
      (fun k hk => numBoldFailsAll_sound _ (numBoldFailsAll_letters hn1) _ k hk)
  have e4 : splitSectionsGo (n1.reverse ++ (['.', ' ', '*', '*'].reverse ++ ['1']))
      (blkMidA ++ ('7' :: (blkMidB ++
        (d1 ++ (['\n', '\n'] ++ productBlock '2' '9' n2 d2 []))))) =
      splitSectionsGo
        (['*', '*', '\n', 'P', 'r', 'o', 'd', 'u', 'c', 't', ' ', 'I', 'D', ':', ' ',
          '7', '\n', 'D', 'e', 's', 'c', 'r', 'i', 'p', 't', 'i', 'o', 'n', ':',
          ' '].reverse ++
          (n1.reverse ++ (['.', ' ', '*', '*'].reverse ++ ['1'])))
        (d1 ++ (['\n', '\n'] ++ productBlock '2' '9' n2 d2 [])) :=
    splitGo_skip
      ['*', '*', '\n', 'P', 'r', 'o', 'd', 'u', 'c', 't', ' ', 'I', 'D', ':', ' ',
        '7', '\n', 'D', 'e', 's', 'c', 'r', 'i', 'p', 't', 'i', 'o', 'n', ':', ' '] _ _
      (fun k hk => numBoldFailsAll_sound _ (by decide) _ k hk)
  have e5 : splitSectionsGo
      (['*', '*', '\n', 'P', 'r', 'o', 'd', 'u', 'c', 't', ' ', 'I', 'D', ':', ' ',
        '7', '\n', 'D', 'e', 's', 'c', 'r', 'i', 'p', 't', 'i', 'o', 'n', ':',
        ' '].reverse ++
        (n1.reverse ++ (['.', ' ', '*', '*'].reverse ++ ['1'])))
      (d1 ++ (['\n', '\n'] ++ productBlock '2' '9' n2 d2 [])) =
      splitSectionsGo
        (d1.reverse ++
          (['*', '*', '\n', 'P', 'r', 'o', 'd', 'u', 'c', 't', ' ', 'I', 'D', ':', ' ',
            '7', '\n', 'D', 'e', 's', 'c', 'r', 'i', 'p', 't', 'i', 'o', 'n', ':',
            ' '].reverse ++
            (n1.reverse ++ (['.', ' ', '*', '*'].reverse ++ ['1']))))
        (['\n', '\n'] ++ productBlock '2' '9' n2 d2 []) :=
    splitGo_skip d1 _ _
      (fun k hk => numBoldFailsAll_sound _ (numBoldFailsAll_letters hd1) _ k hk)
  have e6 : splitSectionsGo
      (d1.reverse ++
        (['*', '*', '\n', 'P', 'r', 'o', 'd', 'u', 'c', 't', ' ', 'I', 'D', ':', ' ',
          '7', '\n', 'D', 'e', 's', 'c', 'r', 'i', 'p', 't', 'i', 'o', 'n', ':',
          ' '].reverse ++
          (n1.reverse ++ (['.', ' ', '*', '*'].reverse ++ ['1']))))
      (['\n', '\n'] ++ productBlock '2' '9' n2 d2 []) =
      splitSectionsGo
        (['\n', '\n'].reverse ++
          (d1.reverse ++
            (['*', '*', '\n', 'P', 'r', 'o', 'd', 'u', 'c', 't', ' ', 'I', 'D', ':', ' ',
              '7', '\n', 'D', 'e', 's', 'c', 'r', 'i', 'p', 't', 'i', 'o', 'n', ':',
              ' '].reverse ++
              (n1.reverse ++ (['.', ' ', '*', '*'].reverse ++ ['1'])))))
        (productBlock '2' '9' n2 d2 []) :=
    splitGo_skip ['\n', '\n'] _ _
      (fun k hk => numBoldFailsAll_sound _ (by decide) _ k hk)
  have e7 : splitSectionsGo
      (['\n', '\n'].reverse ++
        (d1.reverse ++
          (['*', '*', '\n', 'P', 'r', 'o', 'd', 'u', 'c', 't', ' ', 'I', 'D', ':', ' ',
            '7', '\n', 'D', 'e', 's', 'c', 'r', 'i', 'p', 't', 'i', 'o', 'n', ':',
            ' '].reverse ++
            (n1.reverse ++ (['.', ' ', '*', '*'].reverse ++ ['1'])))))
      (productBlock '2' '9' n2 d2 []) =
      (['\n', '\n'].reverse ++
        (d1.reverse ++
          (['*', '*', '\n', 'P', 'r', 'o', 'd', 'u', 'c', 't', ' ', 'I', 'D', ':', ' ',
            '7', '\n', 'D', 'e', 's', 'c', 'r', 'i', 'p', 't', 'i', 'o', 'n', ':',
            ' '].reverse ++
            (n1.reverse ++ (['.', ' ', '*', '*'].reverse ++ ['1']))))).reverse ::
        splitSectionsGo ['2'] (['.', ' ', '*', '*'] ++
          (n2 ++ (blkMidA ++ ('9' :: (blkMidB ++ (d2 ++ [])))))) :=
    splitGo_split _ '2' _ (numBoldAt_header '2' (by decide) _) (by rfl)
  have e8 : splitSectionsGo ['2'] (['.', ' ', '*', '*'] ++
      (n2 ++ (blkMidA ++ ('9' :: (blkMidB ++ (d2 ++ [])))))) =
      splitSectionsGo (['.', ' ', '*', '*'].reverse ++ ['2'])
        (n2 ++ (blkMidA ++ ('9' :: (blkMidB ++ (d2 ++ []))))) :=
    splitGo_skip ['.', ' ', '*', '*'] ['2'] _
      (fun k hk => numBoldFailsAll_sound _ (by decide) _ k hk)
  have e9 : splitSectionsGo (['.', ' ', '*', '*'].reverse ++ ['2'])
      (n2 ++ (blkMidA ++ ('9' :: (blkMidB ++ (d2 ++ []))))) =
      splitSectionsGo (n2.reverse ++ (['.', ' ', '*', '*'].reverse ++ ['2']))
        (blkMidA ++ ('9' :: (blkMidB ++ (d2 ++ [])))) :=
    splitGo_skip n2 _ _
      (fun k hk => numBoldFailsAll_sound _ (numBoldFailsAll_letters hn2) _ k hk)
  have e10 : splitSectionsGo (n2.reverse ++ (['.', ' ', '*', '*'].reverse ++ ['2']))
      (blkMidA ++ ('9' :: (blkMidB ++ (d2 ++ [])))) =
      splitSectionsGo
        (['*', '*', '\n', 'P', 'r', 'o', 'd', 'u', 'c', 't', ' ', 'I', 'D', ':', ' ',
          '9', '\n', 'D', 'e', 's', 'c', 'r', 'i', 'p', 't', 'i', 'o', 'n', ':',
          ' '].reverse ++
          (n2.reverse ++ (['.', ' ', '*', '*'].reverse ++ ['2'])))
        (d2 ++ []) :=
    splitGo_skip
      ['*', '*', '\n', 'P', 'r', 'o', 'd', 'u', 'c', 't', ' ', 'I', 'D', ':', ' ',
        '9', '\n', 'D', 'e', 's', 'c', 'r', 'i', 'p', 't', 'i', 'o', 'n', ':', ' '] _ _
      (fun k hk => numBoldFailsAll_sound _ (by decide) _ k hk)
  have e11 : splitSectionsGo
      (['*', '*', '\n', 'P', 'r', 'o', 'd', 'u', 'c', 't', ' ', 'I', 'D', ':', ' ',
        '9', '\n', 'D', 'e', 's', 'c', 'r', 'i', 'p', 't', 'i', 'o', 'n', ':',
        ' '].reverse ++
        (n2.reverse ++ (['.', ' ', '*', '*'].reverse ++ ['2'])))
      (d2 ++ []) =
      splitSectionsGo
        (d2.reverse ++
          (['*', '*', '\n', 'P', 'r', 'o', 'd', 'u', 'c', 't', ' ', 'I', 'D', ':', ' ',
            '9', '\n', 'D', 'e', 's', 'c', 'r', 'i', 'p', 't', 'i', 'o', 'n', ':',
            ' '].reverse ++
            (n2.reverse ++ (['.', ' ', '*', '*'].reverse ++ ['2'])))) [] :=
    splitGo_skip d2 _ []
      (fun k hk => numBoldFailsAll_sound _ (numBoldFailsAll_letters hd2) _ k hk)
  have e12 : splitSectionsGo
      (d2.reverse ++
        (['*', '*', '\n', 'P', 'r', 'o', 'd', 'u', 'c', 't', ' ', 'I', 'D', ':', ' ',
          '9', '\n', 'D', 'e', 's', 'c', 'r', 'i', 'p', 't', 'i', 'o', 'n', ':',
          ' '].reverse ++
          (n2.reverse ++ (['.', ' ', '*', '*'].reverse ++ ['2'])))) [] =
      [(d2.reverse ++
        (['*', '*', '\n', 'P', 'r', 'o', 'd', 'u', 'c', 't', ' ', 'I', 'D', ':', ' ',
          '9', '\n', 'D', 'e', 's', 'c', 'r', 'i', 'p', 't', 'i', 'o', 'n', ':',
          ' '].reverse ++
          (n2.reverse ++ (['.', ' ', '*', '*'].reverse ++ ['2'])))).reverse] := rfl
  show splitSectionsGo [] (twoBlockChars n1 d1 n2 d2) =
    [productBlock '1' '7' n1 d1 ['\n', '\n'], productBlock '2' '9' n2 d2 []]
  rw [e1, e2, e3, e4, e5, e6, e7, e8, e9, e10, e11, e12]
  simp [productBlock, blkHead, blkMidA, blkMidB, List.reverse_append,
    List.reverse_reverse, List.append_assoc]

/-- A lowercase-alphabetic description is never the sentinel default. -/
theorem sentinel_ne_of_letters (d : List Char) (hd : ∀ c ∈ d, lowerLetter c = true) :
    String.mk d ≠ "No description available" := by
  intro h
  have hdata : d = "No description available".data := congrArg String.data h
  have hm : ' ' ∈ d := by rw [hdata]; decide
  exact absurd (hd ' ' hm) (by decide)

/-- Claim C9: on an assistant text made of two product blocks with markers
`Product ID: 7` and `Product ID: 9`, each carrying a labelled description,
the assistant-text extractor yields exactly two records with identifiers
`7` and `9` and non-sentinel descriptions; and a section in which the
identifier scan finds no marker contributes no record. -/
theorem extract_two_blocks (n1 d1 n2 d2 : List Char)
    (hn1 : ∀ c ∈ n1, lowerLetter c = true) (hn1e : n1 ≠ [])
    (hn1d : occursIn "description".data n1 = false)
    (hd1 : ∀ c ∈ d1, lowerLetter c = true) (hd1e : d1 ≠ [])
    (hn2 : ∀ c ∈ n2, lowerLetter c = true) (hn2e : n2 ≠ [])
    (hn2d : occursIn "description".data n2 = false)
    (hd2 : ∀ c ∈ d2, lowerLetter c = true) (hd2e : d2 ≠ []) :
    extractProductsFromAssistantMessage (String.mk (twoBlockChars n1 d1 n2 d2)) =
      [{ name := String.mk n1, productId := "7", description := String.mk d1 },
       { name := String.mk n2, productId := "9", description := String.mk d2 }] ∧
    String.mk d1 ≠ "No description available" ∧
    String.mk d2 ≠ "No description available" ∧
    ∀ sec : List Char, scanFirst productIdTagAt sec = none → processSection sec = none := by
  refine ⟨?_, sentinel_ne_of_letters d1 hd1, sentinel_ne_of_letters d2 hd2, ?_⟩
  · have hp1 := processSection_block '1' '7' (by decide) (by decide) n1 d1 ['\n', '\n']
      hn1 hn1e hn1d hd1 hd1e (Or.inl rfl)
    have hp2 := processSection_block '2' '9' (by decide) (by decide) n2 d2 []
      hn2 hn2e hn2d hd2 hd2e (Or.inr rfl)
    show (splitSections (String.mk (twoBlockChars n1 d1 n2 d2)).data).filterMap
      processSection = _
    rw [show (String.mk (twoBlockChars n1 d1 n2 d2)).data = twoBlockChars n1 d1 n2 d2
      from rfl]
    rw [twoBlock_split n1 d1 n2 d2 hn1 hd1 hn2 hd2]
    simp only [List.filterMap_cons, hp1, hp2, List.filterMap_nil]
  · intro sec h
    simp only [processSection, h, ite_self]

/-- Concrete instance of the two-block extraction. -/
theorem extract_two_blocks_witness :
    extractProductsFromAssistantMessage (String.mk (twoBlockChars
        ['a', 'l', 'p', 'h', 'a'] ['f', 'i', 'r', 's', 't']
        ['b', 'e', 't', 'a'] ['s', 'e', 'c', 'o', 'n', 'd'])) =
      [{ name := String.mk ['a', 'l', 'p', 'h', 'a'], productId := "7",
         description := String.mk ['f', 'i', 'r', 's', 't'] },
       { name := String.mk ['b', 'e', 't', 'a'], productId := "9",
         description := String.mk ['s', 'e', 'c', 'o', 'n', 'd'] }] ∧
    String.mk ['f', 'i', 'r', 's', 't'] ≠ "No description available" ∧
    String.mk ['s', 'e', 'c', 'o', 'n', 'd'] ≠ "No description available" ∧
    ∀ sec : List Char, scanFirst productIdTagAt sec = none → processSection sec = none :=
  extract_two_blocks ['a', 'l', 'p', 'h', 'a'] ['f', 'i', 'r', 's', 't']
    ['b', 'e', 't', 'a'] ['s', 'e', 'c', 'o', 'n', 'd']
    (by decide) (by decide) (by decide) (by decide) (by decide)
    (by decide) (by decide) (by decide) (by decide) (by decide)

end ChatService
